import Mathlib

/-!
# Verification of the `Retrier` scheduler (`src/retrier.js`)

A shallow embedding of the retry scheduler: a `Retrier` instance owns a
pending-admission queue, a retry-wait queue, and an in-flight counter
(`#working`), and moves submitted operations between them.  Time is an
`Int` (milliseconds, as produced by `Date.now()`); the fractional backoff
multiplier `1.2` is handled exactly as the rational `6/5`: the backoff
comparison is carried out in integers scaled by 5, and proved equivalent
to the rational formula of the specification.

Asynchronous behaviour is modelled as a labelled transition system: the
synchronous portions of `retry`, `#call`, `#processPending` and
`#processQueue` are executable Lean functions, and the promise
continuations (`then`/`catch`/`finally` callbacks, abort listeners, and
`setTimeout` ticks) are the transitions of the `Step` relation.

The promise returned to the caller is modelled faithfully to ECMAScript
promise semantics as a one-shot cell (`settleCell`): the first
`resolve`/`reject` call wins and later calls are no-ops.  Ghost fields
(`settleCalls`, `counted`, `decrements`) record how often the callbacks
fired and how often `#working` was decremented on behalf of a task; they
have no influence on control flow.
-/

namespace RetrierModel

/-- A JavaScript failure value as the scheduler can observe it.
`syncError e` is the wrapper produced at `retrier.js:298`
(`new Error("Synchronous error: ...", { cause: error })`), carrying the
original thrown value as its cause; `notAPromise` is the error produced
at `retrier.js:304` (`"Result is not a promise."`). -/
inductive ErrVal where
  | val : Nat → ErrVal
  | syncError : ErrVal → ErrVal
  | notAPromise : ErrVal
deriving DecidableEq

/-- A settlement of the promise handed back to the caller. -/
inductive SettleResult where
  | fulfilled : Nat → SettleResult
  | rejected : ErrVal → SettleResult
deriving DecidableEq

/-- Observable behaviour of one invocation of the submitted operation:
it can throw synchronously, return a value with no callable `then`,
or return an awaitable that later fulfills or rejects. -/
inductive Attempt where
  | throws : ErrVal → Attempt
  | nonThenable : Attempt
  | resolves : Nat → Attempt
  | rejects : ErrVal → Attempt
deriving DecidableEq

/-- Where a submitted call currently is in its lifecycle.
`running`/`retryRunning` mean an attempt's awaitable is outstanding;
`retryWait` means the task sits in `#retrying` between attempts;
`settledUncounted` means the call was rejected synchronously in `#call`
before `#working` was ever incremented; `finished` means a terminal
path that decremented `#working` has run. -/
inductive Phase where
  | pendingAdm
  | running
  | retryWait
  | retryRunning
  | settledUncounted
  | finished
deriving DecidableEq

/-- State of one submitted call, merging the deferred pending entry of
`Retrier.retry` with the `RetryTask` record (`retrier.js:98-174`).
`fn` gives the behaviour of the n-th invocation of the submitted
operation (0-based).  `error`, `timestamp` and `lastAttempt` are the
`RetryTask` fields, meaningful once the task record has been created.
`cell` is the caller's promise; `settleCalls`, `counted`, `decrements`
are ghost observation counters. -/
structure TaskState where
  fn : Nat → Attempt
  invocations : Nat := 0
  hasSignal : Bool := false
  signalAborted : Bool := false
  abortReason : ErrVal := ErrVal.val 0
  listenerOn : Bool := false
  cell : Option SettleResult := none
  settleCalls : Nat := 0
  phase : Phase := Phase.pendingAdm
  error : ErrVal := ErrVal.val 0
  timestamp : Int := 0
  lastAttempt : Int := 0
  counted : Bool := false
  decrements : Nat := 0

def defaultTask : TaskState := { fn := fun _ => Attempt.nonThenable }

instance : Inhabited TaskState := ⟨defaultTask⟩

/-- State of one `Retrier` instance: the two queues hold task ids
(indices into `tasks`), `working` is the `#working` counter, and
`concurrency`, `timeout`, `maxDelay` are the constructor options. -/
structure SchedState where
  tasks : List TaskState
  pending : List Nat
  retrying : List Nat
  working : Int
  concurrency : Nat
  timeout : Int
  maxDelay : Int

/-- The task record stored for id `tid` (`defaultTask` off the end). -/
def taskAt (s : SchedState) (tid : Nat) : TaskState :=
  s.tasks.getD tid defaultTask

/-- Replace task `tid` by `f` applied to it. -/
def updTask (s : SchedState) (tid : Nat) (f : TaskState → TaskState) : SchedState :=
  { s with tasks := s.tasks.set tid (f (taskAt s tid)) }

/-- ECMAScript promise settlement: the first `resolve`/`reject` wins,
every later call is a no-op. -/
def settleCell (c : Option SettleResult) (r : SettleResult) : Option SettleResult :=
  match c with
  | some v => some v
  | none => some r

/-- `isTimeToRetry` (`retrier.js:53-59`): retry when the time since the
last attempt has reached `min(max(lastAttempt - timestamp, 1) * 1.2, maxDelay)`.
The comparison is stated exactly, scaled by 5 to stay in `Int`
(`1.2 = 6/5`); `isTimeToRetry_iff_spec` proves it equivalent to the
unscaled rational comparison. -/
def isTimeToRetry (now : Int) (t : TaskState) (maxDelay : Int) : Bool :=
  decide (5 * (now - t.lastAttempt) ≥
    min (6 * max (t.lastAttempt - t.timestamp) 1) (5 * maxDelay))

/-- `RetryTask.age` (`retrier.js:171-173`): `Date.now() - this.timestamp`. -/
def taskAge (now : Int) (t : TaskState) : Int :=
  now - t.timestamp

/-- `isTimeToBail` (`retrier.js:67-69`): `task.age > timeout`. -/
def isTimeToBail (now : Int) (t : TaskState) (timeout : Int) : Bool :=
  decide (taskAge now t > timeout)

/-- Task update for a terminal path that decrements `#working` and
settles the caller's promise with `r` (first-attempt fulfillment or
non-retryable failure, retry fulfillment or non-retryable failure, and
timeout abandonment all have this shape). -/
def finishUpd (r : SettleResult) (u : TaskState) : TaskState :=
  { u with decrements := u.decrements + 1,
           phase := Phase.finished,
           cell := settleCell u.cell r,
           settleCalls := u.settleCalls + 1 }

/-- Task update for the two synchronous rejections in `Retrier.#call`
(`retrier.js:295-306`): the promise is rejected with `r` before
`#working` was ever incremented. -/
def rejectSyncUpd (r : SettleResult) (u : TaskState) : TaskState :=
  { u with invocations := u.invocations + 1,
           cell := settleCell u.cell r,
           settleCalls := u.settleCalls + 1,
           phase := Phase.settledUncounted }

/-- Task update when a first attempt's awaitable starts
(`retrier.js:308-312`). -/
def startRunUpd (u : TaskState) : TaskState :=
  { u with invocations := u.invocations + 1,
           phase := Phase.running,
           counted := true }

/-- The `RetryTask` constructor (`retrier.js:156-164`) plus abort
listener registration: capture the retryable error, stamp `timestamp`
and `lastAttempt` with the current time, park in the retry-wait phase. -/
def createTaskUpd (e : ErrVal) (now : Int) (u : TaskState) : TaskState :=
  { u with error := e,
           timestamp := now,
           lastAttempt := now,
           phase := Phase.retryWait,
           listenerOn := u.hasSignal }

/-- Task update when a retry attempt fails retryably
(`retrier.js:445-448`): only `lastAttempt` is stamped — the stored
`error` is left untouched. -/
def requeueUpd (now : Int) (u : TaskState) : TaskState :=
  { u with lastAttempt := now, phase := Phase.retryWait }

/-- Task update when the retry loop starts a new attempt
(`retrier.js:424-428`): stamp `lastAttempt`, invoke the operation. -/
def retryStartUpd (now : Int) (u : TaskState) : TaskState :=
  { u with lastAttempt := now,
           invocations := u.invocations + 1,
           phase := Phase.retryRunning }

/-- Synchronous body of `Retrier.#call` (`retrier.js:291-341`): invoke
the operation; a synchronous throw rejects with the wrapped
"Synchronous error" (cause preserved), a non-thenable result rejects
with "Result is not a promise."; otherwise `#working` is incremented
and the attempt's awaitable becomes outstanding (`phase := running`). -/
def callStart (s : SchedState) (tid : Nat) : SchedState :=
  match (taskAt s tid).fn (taskAt s tid).invocations with
  | Attempt.throws e =>
      updTask s tid (rejectSyncUpd (SettleResult.rejected (ErrVal.syncError e)))
  | Attempt.nonThenable =>
      updTask s tid (rejectSyncUpd (SettleResult.rejected ErrVal.notAPromise))
  | _ =>
      { updTask s tid startRunUpd with working := s.working + 1 }

/-- One pass of the `while` loop of `Retrier.#processPending`
(`retrier.js:367-376`), with explicit fuel: while the pending queue is
non-empty and `#working < #concurrency`, shift the oldest entry and
start it. -/
def processPendingAux : Nat → SchedState → SchedState
  | 0, s => s
  | fuel + 1, s =>
      match s.pending with
      | [] => s
      | tid :: rest =>
          if s.working < (s.concurrency : Int) then
            processPendingAux fuel (callStart { s with pending := rest } tid)
          else s

/-- `Retrier.#processPending`; the pending queue only shrinks, so its
length bounds the number of loop iterations. -/
def processPending (s : SchedState) : SchedState :=
  processPendingAux s.pending.length s

/-- One synchronous invocation of `Retrier.#processQueue`
(`retrier.js:382-454`): shift the oldest retry-wait entry; bail
(decrement, reject with the stored error) when its age exceeds the
timeout; push it back when its backoff has not elapsed; otherwise stamp
`lastAttempt` and start the retry attempt.  The `processAgain` timer and
the attempt's continuations are separate transitions of `Step`. -/
def processQueue (s : SchedState) (now : Int) : SchedState :=
  match s.retrying with
  | [] => s
  | tid :: rest =>
      let s0 : SchedState := { s with retrying := rest }
      if isTimeToBail now (taskAt s0 tid) s0.timeout then
        { updTask s0 tid
            (finishUpd (SettleResult.rejected (taskAt s0 tid).error))
          with working := s0.working - 1 }
      else if isTimeToRetry now (taskAt s0 tid) s0.maxDelay = false then
        { s0 with retrying := rest ++ [tid] }
      else
        updTask s0 tid (retryStartUpd now)

/-- First-attempt fulfillment continuation (`retrier.js:313-319`):
`#working--`, `#processPending()`, `resolve(value)`. -/
def firstThen (s : SchedState) (tid : Nat) (v : Nat) : SchedState :=
  processPending
    { updTask s tid (finishUpd (SettleResult.fulfilled v))
      with working := s.working - 1 }

/-- First-attempt rejection continuation (`retrier.js:320-340`): a
non-retryable failure decrements `#working` and rejects; a retryable
failure creates the `RetryTask` record (capturing the error and
stamping `timestamp`/`lastAttempt` with the current time), pushes it
onto `#retrying`, registers the abort listener when a signal was given,
and invokes `#processQueue`. -/
def firstCatch (check : ErrVal → Bool) (now : Int) (s : SchedState) (tid : Nat)
    (e : ErrVal) : SchedState :=
  if check e = false then
    { updTask s tid (finishUpd (SettleResult.rejected e))
      with working := s.working - 1 }
  else
    let s1 := updTask s tid (createTaskUpd e now)
    processQueue { s1 with retrying := s1.retrying ++ [tid] } now

/-- Settlement of a first attempt's awaitable: dispatch to the `then`
or `catch` continuation of `Retrier.#call` according to the recorded
behaviour of the invocation that started it. -/
def settleFirst (check : ErrVal → Bool) (now : Int) (s : SchedState) (tid : Nat) :
    SchedState :=
  match (taskAt s tid).fn ((taskAt s tid).invocations - 1) with
  | Attempt.resolves v => firstThen s tid v
  | Attempt.rejects e => firstCatch check now s tid e
  | _ => s

/-- Retry-attempt fulfillment handler (`retrier.js:430-434`):
`#working--`, `task.resolve(result)`. -/
def retryThen (s : SchedState) (tid : Nat) (v : Nat) : SchedState :=
  { updTask s tid (finishUpd (SettleResult.fulfilled v))
    with working := s.working - 1 }

/-- Retry-attempt rejection handler (`retrier.js:437-449`): a
non-retryable failure decrements `#working` and rejects with the new
failure; a retryable one stamps `task.lastAttempt` and pushes the task
to the back of `#retrying` — the stored `task.error` is left as it was. -/
def retryCatch (check : ErrVal → Bool) (now : Int) (s : SchedState) (tid : Nat)
    (e : ErrVal) : SchedState :=
  if check e = false then
    { updTask s tid (finishUpd (SettleResult.rejected e))
      with working := s.working - 1 }
  else
    { updTask s tid (requeueUpd now)
      with retrying := s.retrying ++ [tid] }

/-- Settlement of a retry attempt's awaitable, including the `finally`
handler (`retrier.js:450-453`) that re-runs `#processPending` and
`#processQueue`. -/
def settleRetry (check : ErrVal → Bool) (now : Int) (s : SchedState) (tid : Nat) :
    SchedState :=
  match (taskAt s tid).fn ((taskAt s tid).invocations - 1) with
  | Attempt.resolves v => processQueue (processPending (retryThen s tid v)) now
  | Attempt.rejects e => processQueue (processPending (retryCatch check now s tid e)) now
  | _ => s

/-- The caller-supplied `AbortSignal`, as observed at submission time:
whether one was passed, whether it is already aborted, and its reason. -/
structure SignalSpec where
  present : Bool
  aborted : Bool
  reason : ErrVal

def noSignal : SignalSpec := { present := false, aborted := false, reason := ErrVal.val 0 }

/-- The record for a freshly submitted call, before its first start. -/
def mkSubmitTask (fn : Nat → Attempt) (sig : SignalSpec) : TaskState :=
  { fn := fn, hasSignal := sig.present, signalAborted := sig.aborted,
    abortReason := sig.reason }

/-- The scheduler state right after `retry` appended the new deferred
entry, before `#processPending` runs. -/
def submitState (s : SchedState) (fn : Nat → Attempt) (sig : SignalSpec) : SchedState :=
  { s with tasks := s.tasks ++ [mkSubmitTask fn sig],
           pending := s.pending ++ [s.tasks.length] }

/-- `Retrier.retry` (`retrier.js:351-361`): `signal?.throwIfAborted()`
throws the signal's reason before anything else happens; otherwise a
fresh promise and task are created, the deferred `#call` thunk is
appended to `#pending`, and `#processPending` runs synchronously. -/
def retry (s : SchedState) (fn : Nat → Attempt) (sig : SignalSpec) :
    Except ErrVal (SchedState × Nat) :=
  if sig.present && sig.aborted then
    Except.error sig.reason
  else
    Except.ok (processPending (submitState s fn sig), s.tasks.length)

/-- The abort listener registered at `retrier.js:332-335`: reject the
caller's promise with `signal.reason`; the queues, counters and task
record are not touched. -/
def fireAbortListener (s : SchedState) (tid : Nat) : SchedState :=
  updTask s tid (fun u =>
    { u with cell := settleCell u.cell (SettleResult.rejected u.abortReason),
             settleCalls := u.settleCalls + 1 })

/-- The transitions of one `Retrier` instance: a `retry` submission, a
first attempt settling, a retry attempt settling, a `processAgain`
timer firing (`setTimeout` callback at `retrier.js:389-394`, which runs
`#processPending` then `#processQueue`), the environment aborting a
task's signal, and a registered abort listener firing. -/
inductive Step (check : ErrVal → Bool) : SchedState → SchedState → Prop where
  | submit {s s' : SchedState} {tid : Nat} (fn : Nat → Attempt) (sig : SignalSpec)
      (h : retry s fn sig = Except.ok (s', tid)) : Step check s s'
  | firstSettle {s : SchedState} (tid : Nat) (now : Int)
      (h : (taskAt s tid).phase = Phase.running) :
      Step check s (settleFirst check now s tid)
  | retrySettle {s : SchedState} (tid : Nat) (now : Int)
      (h : (taskAt s tid).phase = Phase.retryRunning) :
      Step check s (settleRetry check now s tid)
  | tick {s : SchedState} (now : Int) :
      Step check s (processQueue (processPending s) now)
  | abortSet {s : SchedState} (tid : Nat) (h : tid < s.tasks.length) :
      Step check s (updTask s tid (fun u => { u with signalAborted := true }))
  | abortFire {s : SchedState} (tid : Nat) (h : tid < s.tasks.length)
      (hl : (taskAt s tid).listenerOn = true)
      (ha : (taskAt s tid).signalAborted = true) :
      Step check s (fireAbortListener s tid)

/-- A freshly constructed `Retrier` with the given options. -/
def initState (c : Nat) (timeout : Int) (maxDelay : Int) : SchedState :=
  { tasks := [], pending := [], retrying := [], working := 0,
    concurrency := c, timeout := timeout, maxDelay := maxDelay }

/-- States a `Retrier` instance can reach from construction. -/
inductive Reachable (check : ErrVal → Bool) (c : Nat) (timeout : Int) (maxDelay : Int) :
    SchedState → Prop where
  | init : Reachable check c timeout maxDelay (initState c timeout maxDelay)
  | step {s s' : SchedState} (h : Reachable check c timeout maxDelay s)
      (hs : Step check s s') : Reachable check c timeout maxDelay s'

/-- States reachable from a given state. -/
inductive ReachFrom (check : ErrVal → Bool) (s : SchedState) : SchedState → Prop where
  | refl : ReachFrom check s s
  | tail {s' s'' : SchedState} (h : ReachFrom check s s') (hs : Step check s' s'') :
      ReachFrom check s s''

/-! ## Basic lemmas about task access and update -/

theorem getD_set_self {α : Type} (l : List α) (i : Nat) (a d : α)
    (h : i < l.length) : (l.set i a).getD i d = a := by
  induction l generalizing i with
  | nil => simp at h
  | cons x xs ih =>
      cases i with
      | zero => simp [List.set, List.getD]
      | succ n =>
          simp only [List.set, List.getD] at *
          exact ih n (by simpa using h)

theorem getD_set_ne {α : Type} (l : List α) (i j : Nat) (a d : α)
    (h : j ≠ i) : (l.set i a).getD j d = l.getD j d := by
  induction l generalizing i j with
  | nil => simp [List.set]
  | cons x xs ih =>
      cases i with
      | zero =>
          cases j with
          | zero => exact absurd rfl h
          | succ m => simp [List.set, List.getD]
      | succ n =>
          cases j with
          | zero => simp [List.set, List.getD]
          | succ m =>
              simp only [List.set, List.getD]
              exact ih n m (fun hc => h (by simpa using hc))

theorem getD_append_lt {α : Type} (l m : List α) (i : Nat) (d : α)
    (h : i < l.length) : (l ++ m).getD i d = l.getD i d := by
  induction l generalizing i with
  | nil => simp at h
  | cons x xs ih =>
      cases i with
      | zero => simp [List.getD]
      | succ n =>
          simp only [List.cons_append, List.getD] at *
          exact ih n (by simpa using h)

theorem getD_append_len {α : Type} (l : List α) (a d : α) :
    (l ++ [a]).getD l.length d = a := by
  induction l with
  | nil => simp [List.getD]
  | cons x xs ih => simpa [List.getD] using ih

theorem getD_ge {α : Type} (l : List α) (i : Nat) (d : α)
    (h : l.length ≤ i) : l.getD i d = d := by
  induction l generalizing i with
  | nil => simp [List.getD]
  | cons x xs ih =>
      cases i with
      | zero => simp at h
      | succ n =>
          simp only [List.getD]
          exact ih n (by simpa using h)

theorem countP_set_int {α : Type} (p : α → Bool) (l : List α) (i : Nat) (a d : α)
    (h : i < l.length) :
    (((l.set i a).countP p : Nat) : Int) =
      ((l.countP p : Nat) : Int) + (if p a then 1 else 0)
        - (if p (l.getD i d) then 1 else 0) := by
  induction l generalizing i with
  | nil => simp at h
  | cons x xs ih =>
      cases i with
      | zero =>
          simp only [List.set, List.getD, Option.getD_some, List.getElem?_cons_zero,
            List.countP_cons]
          cases hp : p a <;> cases hq : p x <;> simp [hp, hq] <;> omega
      | succ n =>
          have hn : n < xs.length := by simpa using h
          have hx := ih n hn
          have hgd : (x :: xs).getD (n + 1) d = xs.getD n d := by
            simp [List.getD]
          rw [show (x :: xs).set (n + 1) a = x :: xs.set n a from rfl, hgd]
          simp only [List.countP_cons]
          cases hq : p x <;> cases hpa : p a <;> cases hpd : p (xs.getD n d) <;>
            simp only [hq, hpa, hpd, if_true, if_false] at hx ⊢ <;>
            push_cast at hx ⊢ <;> omega

@[simp] theorem taskAt_updTask_self (s : SchedState) (tid : Nat)
    (f : TaskState → TaskState) (h : tid < s.tasks.length) :
    taskAt (updTask s tid f) tid = f (taskAt s tid) :=
  getD_set_self _ _ _ _ h

theorem taskAt_updTask_ne (s : SchedState) (tid j : Nat)
    (f : TaskState → TaskState) (h : j ≠ tid) :
    taskAt (updTask s tid f) j = taskAt s j :=
  getD_set_ne _ _ _ _ _ h

@[simp] theorem updTask_tasks_length (s : SchedState) (tid : Nat)
    (f : TaskState → TaskState) :
    (updTask s tid f).tasks.length = s.tasks.length := by
  simp [updTask]

@[simp] theorem updTask_pending (s : SchedState) (tid : Nat)
    (f : TaskState → TaskState) : (updTask s tid f).pending = s.pending := rfl

@[simp] theorem updTask_retrying (s : SchedState) (tid : Nat)
    (f : TaskState → TaskState) : (updTask s tid f).retrying = s.retrying := rfl

@[simp] theorem updTask_working (s : SchedState) (tid : Nat)
    (f : TaskState → TaskState) : (updTask s tid f).working = s.working := rfl

@[simp] theorem updTask_concurrency (s : SchedState) (tid : Nat)
    (f : TaskState → TaskState) : (updTask s tid f).concurrency = s.concurrency := rfl

@[simp] theorem updTask_timeout (s : SchedState) (tid : Nat)
    (f : TaskState → TaskState) : (updTask s tid f).timeout = s.timeout := rfl

@[simp] theorem updTask_maxDelay (s : SchedState) (tid : Nat)
    (f : TaskState → TaskState) : (updTask s tid f).maxDelay = s.maxDelay := rfl

@[simp] theorem settleCell_some (r v : SettleResult) :
    settleCell (some v) r = some v := rfl

@[simp] theorem settleCell_none (r : SettleResult) :
    settleCell none r = some r := rfl

theorem settleCell_isSome (c : Option SettleResult) (r : SettleResult) :
    (settleCell c r).isSome = true := by
  cases c <;> rfl

theorem settleCell_of_isSome {c : Option SettleResult} (r : SettleResult)
    (h : c.isSome = true) : settleCell c r = c := by
  cases c with
  | none => simp at h
  | some v => rfl

/-! ## The scheduler invariant -/

/-- A task whose start was counted into `#working` and that has not yet
hit a terminal decrement path: exactly the tasks `#working` counts. -/
def live (t : TaskState) : Bool :=
  t.counted && t.decrements == 0

/-- Per-task invariant: `decrements` counts `#working--` executions on
behalf of this task; it never exceeds 1, it is 0 unless the task was
counted, and for counted tasks it is 1 exactly at the terminal
`finished` phase.  Terminal phases carry a settled promise, and tasks
rejected synchronously were never counted and never registered an abort
listener. -/
abbrev GoodTask (t : TaskState) : Prop :=
  t.decrements ≤ 1 ∧
  (t.counted = false → t.decrements = 0) ∧
  (t.counted = true → (t.decrements = 1 ↔ t.phase = Phase.finished)) ∧
  (t.phase = Phase.finished → t.cell.isSome = true ∧ t.counted = true) ∧
  (t.phase = Phase.settledUncounted →
    t.cell.isSome = true ∧ t.counted = false ∧ t.listenerOn = false ∧
    t.invocations = 1) ∧
  (t.phase = Phase.pendingAdm →
    t.counted = false ∧ t.invocations = 0 ∧ t.cell = none ∧ t.listenerOn = false) ∧
  ((t.phase = Phase.running ∨ t.phase = Phase.retryWait ∨
      t.phase = Phase.retryRunning) → t.counted = true)

/-- Scheduler invariant: `#working` equals the number of live tasks,
queue entries are valid ids in the matching phase, and the queues hold
no duplicates. -/
abbrev GoodState (s : SchedState) : Prop :=
  s.working = ((s.tasks.countP live : Nat) : Int) ∧
  (∀ tid ∈ s.pending, tid < s.tasks.length ∧ (taskAt s tid).phase = Phase.pendingAdm) ∧
  (∀ tid ∈ s.retrying, tid < s.tasks.length ∧ (taskAt s tid).phase = Phase.retryWait) ∧
  s.pending.Nodup ∧
  s.retrying.Nodup ∧
  (∀ tid, tid < s.tasks.length → GoodTask (taskAt s tid))

theorem goodState_init (c : Nat) (timeout : Int) (maxDelay : Int) :
    GoodState (initState c timeout maxDelay) := by
  refine ⟨rfl, ?_, ?_, ?_, ?_, ?_⟩ <;> simp [initState]

theorem countP_updTask (s : SchedState) (tid : Nat) (f : TaskState → TaskState)
    (h : tid < s.tasks.length) :
    (((updTask s tid f).tasks.countP live : Nat) : Int) =
      ((s.tasks.countP live : Nat) : Int)
        + (if live (f (taskAt s tid)) then 1 else 0)
        - (if live (taskAt s tid) then 1 else 0) :=
  countP_set_int live s.tasks tid (f (taskAt s tid)) defaultTask h

/-- A task whose phase is not `pendingAdm` is a real entry of the task
list (ids off the end read as `defaultTask`, which is `pendingAdm`). -/
theorem lt_length_of_phase_ne (s : SchedState) (tid : Nat)
    (h : (taskAt s tid).phase ≠ Phase.pendingAdm) : tid < s.tasks.length := by
  by_contra hc
  push_neg at hc
  have : taskAt s tid = defaultTask := getD_ge _ _ _ hc
  exact h (by rw [this]; rfl)

theorem not_mem_pending_of_phase (s : SchedState) (tid : Nat)
    (hs : GoodState s) (h : (taskAt s tid).phase ≠ Phase.pendingAdm) :
    tid ∉ s.pending := by
  intro hm
  exact h (hs.2.1 tid hm).2

theorem not_mem_retrying_of_phase (s : SchedState) (tid : Nat)
    (hs : GoodState s) (h : (taskAt s tid).phase ≠ Phase.retryWait) :
    tid ∉ s.retrying := by
  intro hm
  exact h (hs.2.2.1 tid hm).2

/-- A counted task that is not yet `finished` has no decrement recorded. -/
theorem decrements_eq_zero (t : TaskState) (hg : GoodTask t)
    (hc : t.counted = true) (hph : t.phase ≠ Phase.finished) :
    t.decrements = 0 := by
  obtain ⟨h1, _, h3, _⟩ := hg
  have hne : t.decrements ≠ 1 := fun h => hph ((h3 hc).mp h)
  omega


/-! ## Equation lemmas for the branchy operations -/

@[simp] theorem taskAt_setPending (s : SchedState) (l : List Nat) (tid : Nat) :
    taskAt { s with pending := l } tid = taskAt s tid := rfl

@[simp] theorem taskAt_setRetrying (s : SchedState) (l : List Nat) (tid : Nat) :
    taskAt { s with retrying := l } tid = taskAt s tid := rfl

@[simp] theorem taskAt_setWorking (s : SchedState) (w : Int) (tid : Nat) :
    taskAt { s with working := w } tid = taskAt s tid := rfl

theorem callStart_throws {s : SchedState} {tid : Nat} {e : ErrVal}
    (h : (taskAt s tid).fn (taskAt s tid).invocations = Attempt.throws e) :
    callStart s tid
      = updTask s tid (rejectSyncUpd (SettleResult.rejected (ErrVal.syncError e))) := by
  unfold callStart
  rw [h]

theorem callStart_nonThenable {s : SchedState} {tid : Nat}
    (h : (taskAt s tid).fn (taskAt s tid).invocations = Attempt.nonThenable) :
    callStart s tid
      = updTask s tid (rejectSyncUpd (SettleResult.rejected ErrVal.notAPromise)) := by
  unfold callStart
  rw [h]

theorem callStart_resolves {s : SchedState} {tid : Nat} {v : Nat}
    (h : (taskAt s tid).fn (taskAt s tid).invocations = Attempt.resolves v) :
    callStart s tid = { updTask s tid startRunUpd with working := s.working + 1 } := by
  unfold callStart
  rw [h]

theorem callStart_rejects {s : SchedState} {tid : Nat} {e : ErrVal}
    (h : (taskAt s tid).fn (taskAt s tid).invocations = Attempt.rejects e) :
    callStart s tid = { updTask s tid startRunUpd with working := s.working + 1 } := by
  unfold callStart
  rw [h]

theorem settleFirst_resolves {check : ErrVal → Bool} {now : Int} {s : SchedState}
    {tid v : Nat}
    (h : (taskAt s tid).fn ((taskAt s tid).invocations - 1) = Attempt.resolves v) :
    settleFirst check now s tid = firstThen s tid v := by
  unfold settleFirst
  rw [h]

theorem settleFirst_rejects {check : ErrVal → Bool} {now : Int} {s : SchedState}
    {tid : Nat} {e : ErrVal}
    (h : (taskAt s tid).fn ((taskAt s tid).invocations - 1) = Attempt.rejects e) :
    settleFirst check now s tid = firstCatch check now s tid e := by
  unfold settleFirst
  rw [h]

theorem settleFirst_throws {check : ErrVal → Bool} {now : Int} {s : SchedState}
    {tid : Nat} {e : ErrVal}
    (h : (taskAt s tid).fn ((taskAt s tid).invocations - 1) = Attempt.throws e) :
    settleFirst check now s tid = s := by
  unfold settleFirst
  rw [h]

theorem settleFirst_nonThenable {check : ErrVal → Bool} {now : Int} {s : SchedState}
    {tid : Nat}
    (h : (taskAt s tid).fn ((taskAt s tid).invocations - 1) = Attempt.nonThenable) :
    settleFirst check now s tid = s := by
  unfold settleFirst
  rw [h]

theorem settleRetry_resolves {check : ErrVal → Bool} {now : Int} {s : SchedState}
    {tid v : Nat}
    (h : (taskAt s tid).fn ((taskAt s tid).invocations - 1) = Attempt.resolves v) :
    settleRetry check now s tid = processQueue (processPending (retryThen s tid v)) now := by
  unfold settleRetry
  rw [h]

theorem settleRetry_rejects {check : ErrVal → Bool} {now : Int} {s : SchedState}
    {tid : Nat} {e : ErrVal}
    (h : (taskAt s tid).fn ((taskAt s tid).invocations - 1) = Attempt.rejects e) :
    settleRetry check now s tid
      = processQueue (processPending (retryCatch check now s tid e)) now := by
  unfold settleRetry
  rw [h]

theorem settleRetry_throws {check : ErrVal → Bool} {now : Int} {s : SchedState}
    {tid : Nat} {e : ErrVal}
    (h : (taskAt s tid).fn ((taskAt s tid).invocations - 1) = Attempt.throws e) :
    settleRetry check now s tid = s := by
  unfold settleRetry
  rw [h]

theorem settleRetry_nonThenable {check : ErrVal → Bool} {now : Int} {s : SchedState}
    {tid : Nat}
    (h : (taskAt s tid).fn ((taskAt s tid).invocations - 1) = Attempt.nonThenable) :
    settleRetry check now s tid = s := by
  unfold settleRetry
  rw [h]

theorem processQueue_nil {s : SchedState} {now : Int} (h : s.retrying = []) :
    processQueue s now = s := by
  unfold processQueue
  rw [h]

theorem processQueue_bail {s : SchedState} {now : Int} {tid : Nat} {rest : List Nat}
    (h : s.retrying = tid :: rest)
    (hb : isTimeToBail now (taskAt s tid) s.timeout = true) :
    processQueue s now
      = { updTask { s with retrying := rest } tid
            (finishUpd (SettleResult.rejected (taskAt s tid).error))
          with working := s.working - 1 } := by
  unfold processQueue
  rw [h]
  simp only [taskAt_setRetrying]
  rw [if_pos hb]

theorem processQueue_notReady {s : SchedState} {now : Int} {tid : Nat} {rest : List Nat}
    (h : s.retrying = tid :: rest)
    (hb : isTimeToBail now (taskAt s tid) s.timeout = false)
    (hr : isTimeToRetry now (taskAt s tid) s.maxDelay = false) :
    processQueue s now = { s with retrying := rest ++ [tid] } := by
  unfold processQueue
  rw [h]
  simp only [taskAt_setRetrying]
  rw [if_neg (by simp [hb]), if_pos hr]

theorem processQueue_retryStart {s : SchedState} {now : Int} {tid : Nat} {rest : List Nat}
    (h : s.retrying = tid :: rest)
    (hb : isTimeToBail now (taskAt s tid) s.timeout = false)
    (hr : isTimeToRetry now (taskAt s tid) s.maxDelay = true) :
    processQueue s now = updTask { s with retrying := rest } tid (retryStartUpd now) := by
  unfold processQueue
  rw [h]
  simp only [taskAt_setRetrying]
  rw [if_neg (by simp [hb]), if_neg (by simp [hr])]

/-! ## Preservation of the scheduler invariant -/

theorem goodState_popPending {s : SchedState} {tid : Nat} {rest : List Nat}
    (hs : GoodState s) (h : s.pending = tid :: rest) :
    GoodState { s with pending := rest } := by
  obtain ⟨hw, hp, hr, hnp, hnr, hg⟩ := hs
  refine ⟨hw, ?_, hr, ?_, hnr, hg⟩
  · intro j hj
    exact hp j (by rw [h]; exact List.mem_cons_of_mem _ hj)
  · rw [h] at hnp
    exact (List.nodup_cons.mp hnp).2

theorem goodState_popRetrying {s : SchedState} {tid : Nat} {rest : List Nat}
    (hs : GoodState s) (h : s.retrying = tid :: rest) :
    GoodState { s with retrying := rest } := by
  obtain ⟨hw, hp, hr, hnp, hnr, hg⟩ := hs
  refine ⟨hw, hp, ?_, hnp, ?_, hg⟩
  · intro j hj
    exact hr j (by rw [h]; exact List.mem_cons_of_mem _ hj)
  · rw [h] at hnr
    exact (List.nodup_cons.mp hnr).2

theorem live_of_counted (t : TaskState) (hc : t.counted = true) (hd : t.decrements = 0) :
    live t = true := by
  simp [live, hc, hd]

theorem counted_of_live {t : TaskState} (h : live t = true) : t.counted = true := by
  simp [live] at h
  exact h.1

theorem decrements_of_live {t : TaskState} (h : live t = true) : t.decrements = 0 := by
  simp [live] at h
  exact h.2

/-- Every terminal decrement path (`#working--` with a settle) keeps the
invariant. -/
theorem good_finishTask (s : SchedState) (tid : Nat) (r : SettleResult)
    (hs : GoodState s) (hlen : tid < s.tasks.length)
    (hlive : live (taskAt s tid) = true)
    (hpend : tid ∉ s.pending) (hretr : tid ∉ s.retrying) :
    GoodState { updTask s tid (finishUpd r) with working := s.working - 1 } := by
  obtain ⟨hw, hp, hr, hnp, hnr, hg⟩ := hs
  have hcnt := counted_of_live hlive
  have hdec := decrements_of_live hlive
  refine ⟨?_, ?_, ?_, hnp, hnr, ?_⟩
  · show s.working - 1 = _
    rw [show ({ updTask s tid (finishUpd r) with working := s.working - 1 }
          : SchedState).tasks = (updTask s tid (finishUpd r)).tasks from rfl,
      countP_updTask s tid _ hlen]
    simp only [live, finishUpd, hcnt, hdec, hlive]
    simp
    omega
  · intro j hj
    have hne : j ≠ tid := fun hx => hpend (hx ▸ hj)
    refine ⟨by simpa using (hp j hj).1, ?_⟩
    rw [show taskAt { updTask s tid (finishUpd r) with working := s.working - 1 } j
          = taskAt (updTask s tid (finishUpd r)) j from rfl,
      taskAt_updTask_ne s tid j _ hne]
    exact (hp j hj).2
  · intro j hj
    have hne : j ≠ tid := fun hx => hretr (hx ▸ hj)
    refine ⟨by simpa using (hr j hj).1, ?_⟩
    rw [show taskAt { updTask s tid (finishUpd r) with working := s.working - 1 } j
          = taskAt (updTask s tid (finishUpd r)) j from rfl,
      taskAt_updTask_ne s tid j _ hne]
    exact (hr j hj).2
  · intro j hjlen
    by_cases hje : j = tid
    · subst hje
      rw [show taskAt { updTask s j (finishUpd r) with working := s.working - 1 } j
            = taskAt (updTask s j (finishUpd r)) j from rfl,
        taskAt_updTask_self s j _ hlen]
      refine ⟨?_, ?_, ?_, ?_, ?_, ?_, ?_⟩ <;>
        simp [finishUpd, hcnt, hdec, settleCell_isSome]
    · rw [show taskAt { updTask s tid (finishUpd r) with working := s.working - 1 } j
            = taskAt (updTask s tid (finishUpd r)) j from rfl,
        taskAt_updTask_ne s tid j _ hje]
      exact hg j (by simpa using hjlen)

/-- Pushing a live task (back) onto `#retrying` with a retry-wait
update keeps the invariant. -/
theorem good_enqueueRetryTask (s : SchedState) (tid : Nat) (f : TaskState → TaskState)
    (hs : GoodState s) (hlen : tid < s.tasks.length)
    (hlive : live (taskAt s tid) = true)
    (hpend : tid ∉ s.pending) (hretr : tid ∉ s.retrying)
    (hph : (f (taskAt s tid)).phase = Phase.retryWait)
    (hcnt : (f (taskAt s tid)).counted = true)
    (hdec : (f (taskAt s tid)).decrements = 0) :
    GoodState { updTask s tid f with retrying := s.retrying ++ [tid] } := by
  obtain ⟨hw, hp, hr, hnp, hnr, hg⟩ := hs
  have hlive' : live (f (taskAt s tid)) = true := live_of_counted _ hcnt hdec
  refine ⟨?_, ?_, ?_, hnp, ?_, ?_⟩
  · show s.working = _
    rw [show ({ updTask s tid f with retrying := s.retrying ++ [tid] }
          : SchedState).tasks = (updTask s tid f).tasks from rfl,
      countP_updTask s tid _ hlen]
    simp [hlive, hlive', hw]
  · intro j hj
    have hne : j ≠ tid := fun hx => hpend (hx ▸ hj)
    refine ⟨by simpa using (hp j hj).1, ?_⟩
    rw [show taskAt { updTask s tid f with retrying := s.retrying ++ [tid] } j
          = taskAt (updTask s tid f) j from rfl,
      taskAt_updTask_ne s tid j _ hne]
    exact (hp j hj).2
  · intro j hj
    rw [show ({ updTask s tid f with retrying := s.retrying ++ [tid] }
          : SchedState).retrying = s.retrying ++ [tid] from rfl] at hj
    rcases List.mem_append.mp hj with hj | hj
    · have hne : j ≠ tid := fun hx => hretr (hx ▸ hj)
      refine ⟨by simpa using (hr j hj).1, ?_⟩
      rw [show taskAt { updTask s tid f with retrying := s.retrying ++ [tid] } j
            = taskAt (updTask s tid f) j from rfl,
        taskAt_updTask_ne s tid j _ hne]
      exact (hr j hj).2
    · have hje : j = tid := by simpa using hj
      subst hje
      refine ⟨by simpa using hlen, ?_⟩
      rw [show taskAt { updTask s j f with retrying := s.retrying ++ [j] } j
            = taskAt (updTask s j f) j from rfl,
        taskAt_updTask_self s j _ hlen]
      exact hph
  · rw [show ({ updTask s tid f with retrying := s.retrying ++ [tid] }
        : SchedState).retrying = s.retrying ++ [tid] from rfl,
      List.nodup_append]
    exact ⟨hnr, List.nodup_singleton tid,
      by intro a ha hb; simp at hb; subst hb; exact hretr ha⟩
  · intro j hjlen
    by_cases hje : j = tid
    · subst hje
      rw [show taskAt { updTask s j f with retrying := s.retrying ++ [j] } j
            = taskAt (updTask s j f) j from rfl,
        taskAt_updTask_self s j _ hlen]
      refine ⟨?_, ?_, ?_, ?_, ?_, ?_, ?_⟩ <;> simp [hph, hcnt, hdec]
    · rw [show taskAt { updTask s tid f with retrying := s.retrying ++ [tid] } j
            = taskAt (updTask s tid f) j from rfl,
        taskAt_updTask_ne s tid j _ hje]
      exact hg j (by simpa using hjlen)

/-- Starting a retry attempt on a live retry-wait task keeps the invariant. -/
theorem good_retryStartTask (s : SchedState) (tid : Nat) (now : Int)
    (hs : GoodState s) (hlen : tid < s.tasks.length)
    (hlive : live (taskAt s tid) = true)
    (hpend : tid ∉ s.pending) (hretr : tid ∉ s.retrying) :
    GoodState (updTask s tid (retryStartUpd now)) := by
  obtain ⟨hw, hp, hr, hnp, hnr, hg⟩ := hs
  have hcnt := counted_of_live hlive
  have hdec := decrements_of_live hlive
  have hlive' : live (retryStartUpd now (taskAt s tid)) = true := by
    simp [retryStartUpd, live, hcnt, hdec]
  refine ⟨?_, ?_, ?_, hnp, hnr, ?_⟩
  · rw [updTask_working, countP_updTask s tid _ hlen]
    simp [hlive, hlive', hw]
  · intro j hj
    have hne : j ≠ tid := fun hx => hpend (hx ▸ hj)
    exact ⟨by simpa using (hp j hj).1,
      by rw [taskAt_updTask_ne s tid j _ hne]; exact (hp j hj).2⟩
  · intro j hj
    have hne : j ≠ tid := fun hx => hretr (hx ▸ hj)
    exact ⟨by simpa using (hr j hj).1,
      by rw [taskAt_updTask_ne s tid j _ hne]; exact (hr j hj).2⟩
  · intro j hjlen
    by_cases hje : j = tid
    · subst hje
      rw [taskAt_updTask_self s j _ hlen]
      refine ⟨?_, ?_, ?_, ?_, ?_, ?_, ?_⟩ <;> simp [retryStartUpd, hcnt, hdec]
    · rw [taskAt_updTask_ne s tid j _ hje]
      exact hg j (by simpa using hjlen)

/-- Starting a pending task keeps the invariant. -/
theorem good_callStart (s : SchedState) (tid : Nat)
    (hs : GoodState s) (hlen : tid < s.tasks.length)
    (hph : (taskAt s tid).phase = Phase.pendingAdm)
    (hpend : tid ∉ s.pending) :
    GoodState (callStart s tid) := by
  obtain ⟨hw, hp, hr, hnp, hnr, hg⟩ := hs
  obtain ⟨hcnt, hinv, hcell, hlis⟩ := (hg tid hlen).2.2.2.2.2.1 hph
  have hdec : (taskAt s tid).decrements = 0 := (hg tid hlen).2.1 hcnt
  have hretr : tid ∉ s.retrying := by
    intro hm
    rw [(hr tid hm).2] at hph
    cases hph
  have hsynBranch : ∀ r : SettleResult,
      GoodState (updTask s tid (rejectSyncUpd r)) := by
    intro r
    refine ⟨?_, ?_, ?_, hnp, hnr, ?_⟩
    · rw [updTask_working, countP_updTask s tid _ hlen]
      simp [live, rejectSyncUpd, hcnt, hw]
    · intro j hj
      have hne : j ≠ tid := fun hx => hpend (hx ▸ hj)
      exact ⟨by simpa using (hp j hj).1,
        by rw [taskAt_updTask_ne s tid j _ hne]; exact (hp j hj).2⟩
    · intro j hj
      have hne : j ≠ tid := fun hx => hretr (hx ▸ hj)
      exact ⟨by simpa using (hr j hj).1,
        by rw [taskAt_updTask_ne s tid j _ hne]; exact (hr j hj).2⟩
    · intro j hjlen
      by_cases hje : j = tid
      · subst hje
        rw [taskAt_updTask_self s j _ hlen]
        refine ⟨?_, ?_, ?_, ?_, ?_, ?_, ?_⟩ <;>
          simp [rejectSyncUpd, hcnt, hdec, hcell, hinv, hlis, settleCell_isSome]
      · rw [taskAt_updTask_ne s tid j _ hje]
        exact hg j (by simpa using hjlen)
  have hrunBranch :
      GoodState { updTask s tid startRunUpd with working := s.working + 1 } := by
    refine ⟨?_, ?_, ?_, hnp, hnr, ?_⟩
    · show s.working + 1 = _
      rw [show ({ updTask s tid startRunUpd with working := s.working + 1 }
            : SchedState).tasks = (updTask s tid startRunUpd).tasks from rfl,
        countP_updTask s tid _ hlen]
      simp [live, startRunUpd, hcnt, hdec, hw]
    · intro j hj
      have hne : j ≠ tid := fun hx => hpend (hx ▸ hj)
      refine ⟨by simpa using (hp j hj).1, ?_⟩
      rw [show taskAt { updTask s tid startRunUpd with working := s.working + 1 } j
            = taskAt (updTask s tid startRunUpd) j from rfl,
        taskAt_updTask_ne s tid j _ hne]
      exact (hp j hj).2
    · intro j hj
      have hne : j ≠ tid := fun hx => hretr (hx ▸ hj)
      refine ⟨by simpa using (hr j hj).1, ?_⟩
      rw [show taskAt { updTask s tid startRunUpd with working := s.working + 1 } j
            = taskAt (updTask s tid startRunUpd) j from rfl,
        taskAt_updTask_ne s tid j _ hne]
      exact (hr j hj).2
    · intro j hjlen
      by_cases hje : j = tid
      · subst hje
        rw [show taskAt { updTask s j startRunUpd with working := s.working + 1 } j
              = taskAt (updTask s j startRunUpd) j from rfl,
          taskAt_updTask_self s j _ hlen]
        refine ⟨?_, ?_, ?_, ?_, ?_, ?_, ?_⟩ <;>
          simp [startRunUpd, hcnt, hdec]
      · rw [show taskAt { updTask s tid startRunUpd with working := s.working + 1 } j
              = taskAt (updTask s tid startRunUpd) j from rfl,
          taskAt_updTask_ne s tid j _ hje]
        exact hg j (by simpa using hjlen)
  cases hfn : (taskAt s tid).fn (taskAt s tid).invocations with
  | throws e => rw [callStart_throws hfn]; exact hsynBranch _
  | nonThenable => rw [callStart_nonThenable hfn]; exact hsynBranch _
  | resolves v => rw [callStart_resolves hfn]; exact hrunBranch
  | rejects e => rw [callStart_rejects hfn]; exact hrunBranch

theorem good_processPendingAux (fuel : Nat) :
    ∀ s : SchedState, GoodState s → GoodState (processPendingAux fuel s) := by
  induction fuel with
  | zero => intro s hs; exact hs
  | succ n ih =>
      intro s hs
      unfold processPendingAux
      cases hp : s.pending with
      | nil => exact hs
      | cons tid rest =>
          show GoodState (if s.working < (s.concurrency : Int) then
            processPendingAux n (callStart { s with pending := rest } tid) else s)
          by_cases hcond : s.working < (s.concurrency : Int)
          · rw [if_pos hcond]
            apply ih
            have hs0 : GoodState { s with pending := rest } :=
              goodState_popPending hs hp
            have hmem : tid ∈ s.pending := by rw [hp]; exact List.mem_cons_self _ _
            have hlen : tid < s.tasks.length := (hs.2.1 tid hmem).1
            have hph : (taskAt s tid).phase = Phase.pendingAdm := (hs.2.1 tid hmem).2
            have hnotin : tid ∉ rest := by
              have := hs.2.2.2.1
              rw [hp] at this
              exact (List.nodup_cons.mp this).1
            exact good_callStart { s with pending := rest } tid hs0
              (by simpa using hlen) hph (by simpa using hnotin)
          · rw [if_neg hcond]
            exact hs

theorem good_processPending (s : SchedState) (hs : GoodState s) :
    GoodState (processPending s) :=
  good_processPendingAux _ s hs

theorem good_processQueue (s : SchedState) (now : Int) (hs : GoodState s) :
    GoodState (processQueue s now) := by
  cases hq : s.retrying with
  | nil => rw [processQueue_nil hq]; exact hs
  | cons tid rest =>
      have hmem : tid ∈ s.retrying := by rw [hq]; exact List.mem_cons_self _ _
      have hlen : tid < s.tasks.length := (hs.2.2.1 tid hmem).1
      have hph : (taskAt s tid).phase = Phase.retryWait := (hs.2.2.1 tid hmem).2
      have hcnt : (taskAt s tid).counted = true :=
        (hs.2.2.2.2.2 tid hlen).2.2.2.2.2.2 (Or.inr (Or.inl hph))
      have hdec : (taskAt s tid).decrements = 0 :=
        decrements_eq_zero _ (hs.2.2.2.2.2 tid hlen) hcnt (by rw [hph]; intro h; cases h)
      have hlive : live (taskAt s tid) = true := live_of_counted _ hcnt hdec
      have hpend : tid ∉ s.pending :=
        not_mem_pending_of_phase s tid hs (by rw [hph]; intro h; cases h)
      have hnotin : tid ∉ rest := by
        have := hs.2.2.2.2.1
        rw [hq] at this
        exact (List.nodup_cons.mp this).1
      have hs0 : GoodState { s with retrying := rest } := goodState_popRetrying hs hq
      by_cases hb : isTimeToBail now (taskAt s tid) s.timeout = true
      · rw [processQueue_bail hq hb]
        exact good_finishTask { s with retrying := rest } tid _ hs0
          (by simpa using hlen) (by simpa using hlive) (by simpa using hpend)
          (by simpa using hnotin)
      · rw [Bool.not_eq_true] at hb
        by_cases hr : isTimeToRetry now (taskAt s tid) s.maxDelay = true
        · rw [processQueue_retryStart hq hb hr]
          exact good_retryStartTask { s with retrying := rest } tid now hs0
            (by simpa using hlen) (by simpa using hlive) (by simpa using hpend)
            (by simpa using hnotin)
        · rw [Bool.not_eq_true] at hr
          rw [processQueue_notReady hq hb hr]
          obtain ⟨hw, hpm, hrm, hnp, hnr, hg⟩ := hs
          refine ⟨hw, hpm, ?_, hnp, ?_, hg⟩
          · intro j hj
            rcases (by simpa using hj : j ∈ rest ∨ j = tid) with hj2 | hje
            · exact hrm j (by rw [hq]; exact List.mem_cons_of_mem _ hj2)
            · subst hje
              exact ⟨hlen, hph⟩
          · show (rest ++ [tid]).Nodup
            rw [List.nodup_append]
            rw [hq] at hnr
            exact ⟨(List.nodup_cons.mp hnr).2, List.nodup_singleton tid,
              by intro a ha hb2; simp at hb2; subst hb2; exact hnotin ha⟩

theorem good_settleFirst (check : ErrVal → Bool) (now : Int) (s : SchedState) (tid : Nat)
    (hs : GoodState s) (hph : (taskAt s tid).phase = Phase.running) :
    GoodState (settleFirst check now s tid) := by
  have hlen : tid < s.tasks.length :=
    lt_length_of_phase_ne s tid (by rw [hph]; intro h; cases h)
  have hcnt : (taskAt s tid).counted = true :=
    (hs.2.2.2.2.2 tid hlen).2.2.2.2.2.2 (Or.inl hph)
  have hdec : (taskAt s tid).decrements = 0 :=
    decrements_eq_zero _ (hs.2.2.2.2.2 tid hlen) hcnt (by rw [hph]; intro h; cases h)
  have hlive : live (taskAt s tid) = true := live_of_counted _ hcnt hdec
  have hpend : tid ∉ s.pending :=
    not_mem_pending_of_phase s tid hs (by rw [hph]; intro h; cases h)
  have hretr : tid ∉ s.retrying :=
    not_mem_retrying_of_phase s tid hs (by rw [hph]; intro h; cases h)
  cases hfn : (taskAt s tid).fn ((taskAt s tid).invocations - 1) with
  | throws e => rw [settleFirst_throws hfn]; exact hs
  | nonThenable => rw [settleFirst_nonThenable hfn]; exact hs
  | resolves v =>
      rw [settleFirst_resolves hfn]
      exact good_processPending _ (good_finishTask s tid _ hs hlen hlive hpend hretr)
  | rejects e =>
      rw [settleFirst_rejects hfn]
      unfold firstCatch
      by_cases hc : check e = false
      · rw [if_pos hc]
        exact good_finishTask s tid _ hs hlen hlive hpend hretr
      · rw [if_neg hc]
        exact good_processQueue _ now
          (good_enqueueRetryTask s tid (createTaskUpd e now) hs hlen hlive hpend hretr
            (by simp [createTaskUpd]) (by simp [createTaskUpd, hcnt])
            (by simp [createTaskUpd, hdec]))

theorem good_settleRetry (check : ErrVal → Bool) (now : Int) (s : SchedState) (tid : Nat)
    (hs : GoodState s) (hph : (taskAt s tid).phase = Phase.retryRunning) :
    GoodState (settleRetry check now s tid) := by
  have hlen : tid < s.tasks.length :=
    lt_length_of_phase_ne s tid (by rw [hph]; intro h; cases h)
  have hcnt : (taskAt s tid).counted = true :=
    (hs.2.2.2.2.2 tid hlen).2.2.2.2.2.2 (Or.inr (Or.inr hph))
  have hdec : (taskAt s tid).decrements = 0 :=
    decrements_eq_zero _ (hs.2.2.2.2.2 tid hlen) hcnt (by rw [hph]; intro h; cases h)
  have hlive : live (taskAt s tid) = true := live_of_counted _ hcnt hdec
  have hpend : tid ∉ s.pending :=
    not_mem_pending_of_phase s tid hs (by rw [hph]; intro h; cases h)
  have hretr : tid ∉ s.retrying :=
    not_mem_retrying_of_phase s tid hs (by rw [hph]; intro h; cases h)
  cases hfn : (taskAt s tid).fn ((taskAt s tid).invocations - 1) with
  | throws e => rw [settleRetry_throws hfn]; exact hs
  | nonThenable => rw [settleRetry_nonThenable hfn]; exact hs
  | resolves v =>
      rw [settleRetry_resolves hfn]
      exact good_processQueue _ now (good_processPending _
        (good_finishTask s tid _ hs hlen hlive hpend hretr))
  | rejects e =>
      rw [settleRetry_rejects hfn]
      unfold retryCatch
      by_cases hc : check e = false
      · rw [if_pos hc]
        exact good_processQueue _ now (good_processPending _
          (good_finishTask s tid _ hs hlen hlive hpend hretr))
      · rw [if_neg hc]
        exact good_processQueue _ now (good_processPending _
          (good_enqueueRetryTask s tid (requeueUpd now) hs hlen hlive hpend hretr
            (by simp [requeueUpd]) (by simp [requeueUpd, hcnt])
            (by simp [requeueUpd, hdec])))

theorem good_submitState (s : SchedState) (fn : Nat → Attempt) (sig : SignalSpec)
    (hs : GoodState s) : GoodState (submitState s fn sig) := by
  obtain ⟨hw, hp, hr, hnp, hnr, hg⟩ := hs
  refine ⟨?_, ?_, ?_, ?_, hnr, ?_⟩
  · show s.working = _
    rw [show (submitState s fn sig).tasks = s.tasks ++ [mkSubmitTask fn sig] from rfl,
      List.countP_append]
    have : live (mkSubmitTask fn sig) = false := by simp [mkSubmitTask, live]
    simp [List.countP_singleton, this, hw]
  · intro j hj
    rcases (by simpa [submitState] using hj : j ∈ s.pending ∨ j = s.tasks.length)
      with hj2 | hje
    · have hlt : j < s.tasks.length := (hp j hj2).1
      refine ⟨by simp [submitState]; omega, ?_⟩
      show ((s.tasks ++ [mkSubmitTask fn sig]).getD j defaultTask).phase
        = Phase.pendingAdm
      rw [getD_append_lt s.tasks _ j defaultTask hlt]
      exact (hp j hj2).2
    · subst hje
      refine ⟨by simp [submitState], ?_⟩
      show ((s.tasks ++ [mkSubmitTask fn sig]).getD s.tasks.length defaultTask).phase
        = Phase.pendingAdm
      rw [getD_append_len]
      rfl
  · intro j hj
    have hlt : j < s.tasks.length := (hr j hj).1
    refine ⟨by simp [submitState]; omega, ?_⟩
    show ((s.tasks ++ [mkSubmitTask fn sig]).getD j defaultTask).phase = Phase.retryWait
    rw [getD_append_lt s.tasks _ j defaultTask hlt]
    exact (hr j hj).2
  · show (s.pending ++ [s.tasks.length]).Nodup
    rw [List.nodup_append]
    refine ⟨hnp, List.nodup_singleton _, ?_⟩
    intro a ha hb
    simp at hb
    subst hb
    exact absurd (hp _ ha).1 (lt_irrefl _)
  · intro j hjlen
    show GoodTask ((s.tasks ++ [mkSubmitTask fn sig]).getD j defaultTask)
    rcases Nat.lt_or_ge j s.tasks.length with hlt | hge
    · rw [getD_append_lt s.tasks _ j defaultTask hlt]
      exact hg j hlt
    · have hje : j = s.tasks.length := by
        simp [submitState] at hjlen
        omega
      subst hje
      rw [getD_append_len]
      refine ⟨?_, ?_, ?_, ?_, ?_, ?_, ?_⟩ <;> simp [mkSubmitTask]

theorem retry_ok {s : SchedState} {fn : Nat → Attempt} {sig : SignalSpec}
    {s' : SchedState} {tid : Nat}
    (h : retry s fn sig = Except.ok (s', tid)) :
    s' = processPending (submitState s fn sig) ∧ tid = s.tasks.length := by
  unfold retry at h
  by_cases hc : (sig.present && sig.aborted) = true
  · rw [if_pos hc] at h
    cases h
  · rw [if_neg hc] at h
    have := Except.ok.inj h
    exact ⟨(Prod.mk.injEq .. ▸ this).1.symm, (Prod.mk.injEq .. ▸ this).2.symm⟩

theorem good_retry (s : SchedState) (fn : Nat → Attempt) (sig : SignalSpec)
    {s' : SchedState} {tid : Nat}
    (h : retry s fn sig = Except.ok (s', tid)) (hs : GoodState s) :
    GoodState s' := by
  rw [(retry_ok h).1]
  exact good_processPending _ (good_submitState s fn sig hs)

theorem good_fireAbortListener (s : SchedState) (tid : Nat)
    (hs : GoodState s) (hlen : tid < s.tasks.length)
    (hl : (taskAt s tid).listenerOn = true) :
    GoodState (fireAbortListener s tid) := by
  obtain ⟨hw, hp, hr, hnp, hnr, hg⟩ := hs
  have hnpend : (taskAt s tid).phase ≠ Phase.pendingAdm := by
    intro hx
    have := ((hg tid hlen).2.2.2.2.2.1 hx).2.2.2
    rw [hl] at this
    cases this
  have hnsu : (taskAt s tid).phase ≠ Phase.settledUncounted := by
    intro hx
    have := ((hg tid hlen).2.2.2.2.1 hx).2.2.1
    rw [hl] at this
    cases this
  have hpend : tid ∉ s.pending := fun hm => hnpend (hp tid hm).2
  unfold fireAbortListener
  refine ⟨?_, ?_, ?_, hnp, hnr, ?_⟩
  · rw [updTask_working, countP_updTask s tid _ hlen]
    simp [live, hw]
  · intro j hj
    have hne : j ≠ tid := fun hx => hpend (hx ▸ hj)
    exact ⟨by simpa using (hp j hj).1,
      by rw [taskAt_updTask_ne s tid j _ hne]; exact (hp j hj).2⟩
  · intro j hj
    by_cases hje : j = tid
    · subst hje
      refine ⟨by simpa using (hr j hj).1, ?_⟩
      rw [taskAt_updTask_self s j _ hlen]
      exact (hr j hj).2
    · exact ⟨by simpa using (hr j hj).1,
        by rw [taskAt_updTask_ne s tid j _ hje]; exact (hr j hj).2⟩
  · intro j hjlen
    by_cases hje : j = tid
    · subst hje
      rw [taskAt_updTask_self s j _ hlen]
      obtain ⟨g1, g2, g3, g4, g5, g6, g7⟩ := hg j hlen
      refine ⟨by simpa using g1, by simpa using g2, by simpa using g3, ?_, ?_, ?_, ?_⟩
      · intro hx
        refine ⟨settleCell_isSome _ _, ?_⟩
        exact (g4 (by simpa using hx)).2
      · intro hx
        exact absurd (by simpa using hx) hnsu
      · intro hx
        exact absurd (by simpa using hx) hnpend
      · intro hx
        exact g7 (by simpa using hx)
    · rw [taskAt_updTask_ne s tid j _ hje]
      exact hg j (by simpa using hjlen)

theorem good_abortSet (s : SchedState) (tid : Nat)
    (hs : GoodState s) (hlen : tid < s.tasks.length) :
    GoodState (updTask s tid (fun u => { u with signalAborted := true })) := by
  obtain ⟨hw, hp, hr, hnp, hnr, hg⟩ := hs
  refine ⟨?_, ?_, ?_, hnp, hnr, ?_⟩
  · rw [updTask_working, countP_updTask s tid _ hlen]
    simp [live, hw]
  · intro j hj
    by_cases hje : j = tid
    · subst hje
      refine ⟨by simpa using (hp j hj).1, ?_⟩
      rw [taskAt_updTask_self s j _ hlen]
      exact (hp j hj).2
    · exact ⟨by simpa using (hp j hj).1,
        by rw [taskAt_updTask_ne s tid j _ hje]; exact (hp j hj).2⟩
  · intro j hj
    by_cases hje : j = tid
    · subst hje
      refine ⟨by simpa using (hr j hj).1, ?_⟩
      rw [taskAt_updTask_self s j _ hlen]
      exact (hr j hj).2
    · exact ⟨by simpa using (hr j hj).1,
        by rw [taskAt_updTask_ne s tid j _ hje]; exact (hr j hj).2⟩
  · intro j hjlen
    by_cases hje : j = tid
    · subst hje
      rw [taskAt_updTask_self s j _ hlen]
      obtain ⟨g1, g2, g3, g4, g5, g6, g7⟩ := hg j hlen
      exact ⟨by simpa using g1, by simpa using g2, by simpa using g3,
        by simpa using g4, by simpa using g5, by simpa using g6,
        by simpa using g7⟩
    · rw [taskAt_updTask_ne s tid j _ hje]
      exact hg j (by simpa using hjlen)

/-- Every transition preserves the scheduler invariant. -/
theorem good_step {check : ErrVal → Bool} {s s' : SchedState}
    (hst : Step check s s') (hs : GoodState s) : GoodState s' := by
  cases hst with
  | submit fn sig h => exact good_retry s fn sig h hs
  | firstSettle tid now h => exact good_settleFirst check now s tid hs h
  | retrySettle tid now h => exact good_settleRetry check now s tid hs h
  | tick now => exact good_processQueue _ now (good_processPending s hs)
  | abortSet tid h => exact good_abortSet s tid hs h
  | abortFire tid h hl ha => exact good_fireAbortListener s tid hs h hl

/-- Every reachable state of a `Retrier` satisfies the invariant. -/
theorem good_reachable {check : ErrVal → Bool} {c : Nat} {timeout : Int} {maxDelay : Int}
    {s : SchedState} (h : Reachable check c timeout maxDelay s) : GoodState s := by
  induction h with
  | init => exact goodState_init c timeout maxDelay
  | step _ hs ih => exact good_step hs ih

theorem good_reachFrom {check : ErrVal → Bool} {s s' : SchedState}
    (h : ReachFrom check s s') (hs : GoodState s) : GoodState s' := by
  induction h with
  | refl => exact hs
  | tail _ hst ih => exact good_step hst ih

/-! ## Settlement stability: a settled promise never changes -/

theorem set_ge {α : Type} (l : List α) (i : Nat) (a : α) (h : l.length ≤ i) :
    l.set i a = l := by
  induction l generalizing i with
  | nil => rfl
  | cons x xs ih =>
      cases i with
      | zero => simp at h
      | succ n => simp [List.set, ih n (by simpa using h)]

/-- `s'` extends `s` without disturbing any already-settled promise. -/
def CellMono (s s' : SchedState) : Prop :=
  ∀ j r, (taskAt s j).cell = some r → (taskAt s' j).cell = some r

theorem cellMono_refl (s : SchedState) : CellMono s s := fun _ _ h => h

theorem cellMono_trans {s₁ s₂ s₃ : SchedState}
    (h₁ : CellMono s₁ s₂) (h₂ : CellMono s₂ s₃) : CellMono s₁ s₃ :=
  fun j r h => h₂ j r (h₁ j r h)

/-- Core step for settlement stability: any state whose task list is an
update of task `tid` by a cell-preserving `f` is cell-monotone over the
original. -/
theorem cellMono_updTask_tasks (s : SchedState) (tid : Nat) (f : TaskState → TaskState)
    (t' : SchedState) (ht : t'.tasks = s.tasks.set tid (f (taskAt s tid)))
    (hf : ∀ r, (taskAt s tid).cell = some r → (f (taskAt s tid)).cell = some r) :
    CellMono s t' := by
  intro j r h
  show (t'.tasks.getD j defaultTask).cell = some r
  rw [ht]
  rcases Nat.lt_or_ge tid s.tasks.length with hlen | hge
  · by_cases hje : j = tid
    · subst hje
      rw [getD_set_self _ _ _ _ hlen]
      exact hf r h
    · rw [getD_set_ne _ _ _ _ _ hje]
      exact h
  · rw [set_ge _ _ _ hge]
    exact h

theorem cellMono_updTask (s : SchedState) (tid : Nat) (f : TaskState → TaskState)
    (hf : ∀ r, (taskAt s tid).cell = some r → (f (taskAt s tid)).cell = some r) :
    CellMono s (updTask s tid f) :=
  cellMono_updTask_tasks s tid f (updTask s tid f) rfl hf

theorem cellMono_callStart (s : SchedState) (tid : Nat) :
    CellMono s (callStart s tid) := by
  cases hfn : (taskAt s tid).fn (taskAt s tid).invocations with
  | throws e =>
      rw [callStart_throws hfn]
      exact cellMono_updTask s tid _ (fun r h => by simp [rejectSyncUpd, h])
  | nonThenable =>
      rw [callStart_nonThenable hfn]
      exact cellMono_updTask s tid _ (fun r h => by simp [rejectSyncUpd, h])
  | resolves v =>
      rw [callStart_resolves hfn]
      exact cellMono_updTask_tasks s tid startRunUpd _ rfl
        (fun r h => by simp [startRunUpd, h])
  | rejects e =>
      rw [callStart_rejects hfn]
      exact cellMono_updTask_tasks s tid startRunUpd _ rfl
        (fun r h => by simp [startRunUpd, h])

theorem cellMono_processPendingAux (fuel : Nat) :
    ∀ s : SchedState, CellMono s (processPendingAux fuel s) := by
  induction fuel with
  | zero => intro s; exact cellMono_refl s
  | succ n ih =>
      intro s
      unfold processPendingAux
      cases hp : s.pending with
      | nil => exact cellMono_refl s
      | cons tid rest =>
          show CellMono s (if s.working < (s.concurrency : Int) then
            processPendingAux n (callStart { s with pending := rest } tid) else s)
          by_cases hcond : s.working < (s.concurrency : Int)
          · rw [if_pos hcond]
            exact cellMono_trans
              (cellMono_callStart { s with pending := rest } tid)
              (ih (callStart { s with pending := rest } tid))
          · rw [if_neg hcond]
            exact cellMono_refl s

theorem cellMono_processPending (s : SchedState) : CellMono s (processPending s) :=
  cellMono_processPendingAux _ s

theorem cellMono_processQueue (s : SchedState) (now : Int) :
    CellMono s (processQueue s now) := by
  cases hq : s.retrying with
  | nil => rw [processQueue_nil hq]; exact cellMono_refl s
  | cons tid rest =>
      by_cases hb : isTimeToBail now (taskAt s tid) s.timeout = true
      · rw [processQueue_bail hq hb]
        exact cellMono_updTask_tasks s tid
          (finishUpd (SettleResult.rejected (taskAt s tid).error)) _ rfl
          (fun r h => by simp [finishUpd, h])
      · rw [Bool.not_eq_true] at hb
        by_cases hr : isTimeToRetry now (taskAt s tid) s.maxDelay = true
        · rw [processQueue_retryStart hq hb hr]
          exact cellMono_updTask_tasks s tid (retryStartUpd now) _ rfl
            (fun r h => by simp [retryStartUpd, h])
        · rw [Bool.not_eq_true] at hr
          rw [processQueue_notReady hq hb hr]
          exact cellMono_refl s

theorem cellMono_settleFirst (check : ErrVal → Bool) (now : Int) (s : SchedState)
    (tid : Nat) : CellMono s (settleFirst check now s tid) := by
  cases hfn : (taskAt s tid).fn ((taskAt s tid).invocations - 1) with
  | throws e => rw [settleFirst_throws hfn]; exact cellMono_refl s
  | nonThenable => rw [settleFirst_nonThenable hfn]; exact cellMono_refl s
  | resolves v =>
      rw [settleFirst_resolves hfn]
      exact cellMono_trans
        (cellMono_updTask_tasks s tid (finishUpd (SettleResult.fulfilled v)) _ rfl
          (fun r h => by simp [finishUpd, h]))
        (cellMono_processPending _)
  | rejects e =>
      rw [settleFirst_rejects hfn]
      unfold firstCatch
      by_cases hc : check e = false
      · rw [if_pos hc]
        exact cellMono_updTask_tasks s tid (finishUpd (SettleResult.rejected e)) _ rfl
          (fun r h => by simp [finishUpd, h])
      · rw [if_neg hc]
        exact cellMono_trans
          (cellMono_updTask_tasks s tid (createTaskUpd e now) _ rfl
            (fun r h => by simp [createTaskUpd, h]))
          (cellMono_processQueue _ now)

theorem cellMono_settleRetry (check : ErrVal → Bool) (now : Int) (s : SchedState)
    (tid : Nat) : CellMono s (settleRetry check now s tid) := by
  cases hfn : (taskAt s tid).fn ((taskAt s tid).invocations - 1) with
  | throws e => rw [settleRetry_throws hfn]; exact cellMono_refl s
  | nonThenable => rw [settleRetry_nonThenable hfn]; exact cellMono_refl s
  | resolves v =>
      rw [settleRetry_resolves hfn]
      exact cellMono_trans
        (cellMono_updTask_tasks s tid (finishUpd (SettleResult.fulfilled v)) _ rfl
          (fun r h => by simp [finishUpd, h]))
        (cellMono_trans (cellMono_processPending _) (cellMono_processQueue _ now))
  | rejects e =>
      rw [settleRetry_rejects hfn]
      unfold retryCatch
      by_cases hc : check e = false
      · rw [if_pos hc]
        exact cellMono_trans
          (cellMono_updTask_tasks s tid (finishUpd (SettleResult.rejected e)) _ rfl
            (fun r h => by simp [finishUpd, h]))
          (cellMono_trans (cellMono_processPending _) (cellMono_processQueue _ now))
      · rw [if_neg hc]
        exact cellMono_trans
          (cellMono_updTask_tasks s tid (requeueUpd now) _ rfl
            (fun r h => by simp [requeueUpd, h]))
          (cellMono_trans (cellMono_processPending _) (cellMono_processQueue _ now))

theorem cellMono_submitState (s : SchedState) (fn : Nat → Attempt) (sig : SignalSpec) :
    CellMono s (submitState s fn sig) := by
  intro j r h
  show ((s.tasks ++ [mkSubmitTask fn sig]).getD j defaultTask).cell = some r
  rcases Nat.lt_or_ge j s.tasks.length with hlt | hge
  · rw [getD_append_lt s.tasks _ j defaultTask hlt]
    exact h
  · exfalso
    have : taskAt s j = defaultTask := getD_ge _ _ _ hge
    rw [this] at h
    cases h

theorem cellMono_fireAbortListener (s : SchedState) (tid : Nat) :
    CellMono s (fireAbortListener s tid) := by
  unfold fireAbortListener
  exact cellMono_updTask s tid _ (fun r h => by simp [h])

/-- No transition of the scheduler disturbs an already-settled promise:
every redundant settle attempt is a no-op. -/
theorem cellMono_step {check : ErrVal → Bool} {s s' : SchedState}
    (hst : Step check s s') : CellMono s s' := by
  cases hst with
  | submit fn sig h =>
      rw [(retry_ok h).1]
      exact cellMono_trans (cellMono_submitState s fn sig) (cellMono_processPending _)
  | firstSettle tid now h => exact cellMono_settleFirst check now s tid
  | retrySettle tid now h => exact cellMono_settleRetry check now s tid
  | tick now =>
      exact cellMono_trans (cellMono_processPending s) (cellMono_processQueue _ now)
  | abortSet tid h =>
      exact cellMono_updTask s tid _ (fun r h2 => by simp [h2])
  | abortFire tid h hl ha => exact cellMono_fireAbortListener s tid

theorem cellMono_reachFrom {check : ErrVal → Bool} {s s' : SchedState}
    (h : ReachFrom check s s') : CellMono s s' := by
  induction h with
  | refl => exact cellMono_refl s
  | tail _ hst ih => exact cellMono_trans ih (cellMono_step hst)

/-! ## Task evolution: phases after task-record creation -/

/-- Phases a task can be in once its `RetryTask` record exists. -/
def postCreate (p : Phase) : Bool :=
  p == Phase.retryWait || p == Phase.retryRunning || p == Phase.finished

/-- How a single task record may evolve: a task settled synchronously
is frozen (same phase, invocation count and settlement), and a task
whose record has been created keeps its creation timestamp and stays
in post-creation phases. -/
def Later (t t' : TaskState) : Prop :=
  (t.phase = Phase.settledUncounted →
     t'.phase = Phase.settledUncounted ∧ t'.invocations = t.invocations ∧
     t'.cell = t.cell) ∧
  (postCreate t.phase = true →
     postCreate t'.phase = true ∧ t'.timestamp = t.timestamp)

theorem later_refl (t : TaskState) : Later t t :=
  ⟨fun h => ⟨h, rfl, rfl⟩, fun h => ⟨h, rfl⟩⟩

theorem later_trans {t₁ t₂ t₃ : TaskState} (h₁ : Later t₁ t₂) (h₂ : Later t₂ t₃) :
    Later t₁ t₃ := by
  constructor
  · intro h
    obtain ⟨p1, p2, p3⟩ := h₁.1 h
    obtain ⟨q1, q2, q3⟩ := h₂.1 p1
    exact ⟨q1, q2.trans p2, q3.trans p3⟩
  · intro h
    obtain ⟨p1, p2⟩ := h₁.2 h
    obtain ⟨q1, q2⟩ := h₂.2 p1
    exact ⟨q1, q2.trans p2⟩

def LaterAll (s s' : SchedState) : Prop :=
  ∀ j, Later (taskAt s j) (taskAt s' j)

theorem laterAll_refl (s : SchedState) : LaterAll s s := fun j => later_refl _

theorem laterAll_trans {s₁ s₂ s₃ : SchedState}
    (h₁ : LaterAll s₁ s₂) (h₂ : LaterAll s₂ s₃) : LaterAll s₁ s₃ :=
  fun j => later_trans (h₁ j) (h₂ j)

theorem laterAll_updTask_tasks (s : SchedState) (tid : Nat) (f : TaskState → TaskState)
    (t' : SchedState) (ht : t'.tasks = s.tasks.set tid (f (taskAt s tid)))
    (hf : Later (taskAt s tid) (f (taskAt s tid))) : LaterAll s t' := by
  intro j
  have hj : taskAt t' j = (s.tasks.set tid (f (taskAt s tid))).getD j defaultTask := by
    show t'.tasks.getD j defaultTask = _
    rw [ht]
  rcases Nat.lt_or_ge tid s.tasks.length with hlen | hge
  · by_cases hje : j = tid
    · subst hje
      rw [hj, getD_set_self _ _ _ _ hlen]
      exact hf
    · rw [hj, getD_set_ne _ _ _ _ _ hje]
      exact later_refl _
  · rw [hj, set_ge _ _ _ hge]
    exact later_refl _

theorem later_finishUpd (t : TaskState) (r : SettleResult)
    (h : t.phase ≠ Phase.settledUncounted) : Later t (finishUpd r t) := by
  constructor
  · intro hsu
    exact absurd hsu h
  · intro _
    exact ⟨by simp [finishUpd, postCreate], by simp [finishUpd]⟩

theorem later_rejectSyncUpd (t : TaskState) (r : SettleResult)
    (h : t.phase = Phase.pendingAdm) : Later t (rejectSyncUpd r t) := by
  constructor
  · intro hsu
    rw [h] at hsu
    cases hsu
  · intro hpc
    rw [h] at hpc
    simp [postCreate] at hpc

theorem later_startRunUpd (t : TaskState) (h : t.phase = Phase.pendingAdm) :
    Later t (startRunUpd t) := by
  constructor
  · intro hsu
    rw [h] at hsu
    cases hsu
  · intro hpc
    rw [h] at hpc
    simp [postCreate] at hpc

theorem later_createTaskUpd (t : TaskState) (e : ErrVal) (now : Int)
    (h : t.phase = Phase.running) : Later t (createTaskUpd e now t) := by
  constructor
  · intro hsu
    rw [h] at hsu
    cases hsu
  · intro hpc
    rw [h] at hpc
    simp [postCreate] at hpc

theorem later_requeueUpd (t : TaskState) (now : Int)
    (h : t.phase ≠ Phase.settledUncounted) : Later t (requeueUpd now t) := by
  constructor
  · intro hsu
    exact absurd hsu h
  · intro _
    exact ⟨by simp [requeueUpd, postCreate], by simp [requeueUpd]⟩

theorem later_retryStartUpd (t : TaskState) (now : Int)
    (h : t.phase ≠ Phase.settledUncounted) : Later t (retryStartUpd now t) := by
  constructor
  · intro hsu
    exact absurd hsu h
  · intro _
    exact ⟨by simp [retryStartUpd, postCreate], by simp [retryStartUpd]⟩

theorem laterAll_callStart (s : SchedState) (tid : Nat)
    (hph : (taskAt s tid).phase = Phase.pendingAdm) :
    LaterAll s (callStart s tid) := by
  cases hfn : (taskAt s tid).fn (taskAt s tid).invocations with
  | throws e =>
      rw [callStart_throws hfn]
      exact laterAll_updTask_tasks s tid _ _ rfl (later_rejectSyncUpd _ _ hph)
  | nonThenable =>
      rw [callStart_nonThenable hfn]
      exact laterAll_updTask_tasks s tid _ _ rfl (later_rejectSyncUpd _ _ hph)
  | resolves v =>
      rw [callStart_resolves hfn]
      exact laterAll_updTask_tasks s tid startRunUpd _ rfl (later_startRunUpd _ hph)
  | rejects e =>
      rw [callStart_rejects hfn]
      exact laterAll_updTask_tasks s tid startRunUpd _ rfl (later_startRunUpd _ hph)

theorem laterAll_processPendingAux (fuel : Nat) :
    ∀ s : SchedState, GoodState s → LaterAll s (processPendingAux fuel s) := by
  induction fuel with
  | zero => intro s _; exact laterAll_refl s
  | succ n ih =>
      intro s hs
      unfold processPendingAux
      cases hp : s.pending with
      | nil => exact laterAll_refl s
      | cons tid rest =>
          show LaterAll s (if s.working < (s.concurrency : Int) then
            processPendingAux n (callStart { s with pending := rest } tid) else s)
          by_cases hcond : s.working < (s.concurrency : Int)
          · rw [if_pos hcond]
            have hmem : tid ∈ s.pending := by rw [hp]; exact List.mem_cons_self _ _
            have hph : (taskAt s tid).phase = Phase.pendingAdm := (hs.2.1 tid hmem).2
            have hs0 : GoodState { s with pending := rest } := goodState_popPending hs hp
            have hgood : GoodState (callStart { s with pending := rest } tid) :=
              good_callStart { s with pending := rest } tid hs0
                (by simpa using (hs.2.1 tid hmem).1) hph
                (by
                  have := hs.2.2.2.1
                  rw [hp] at this
                  simpa using (List.nodup_cons.mp this).1)
            exact laterAll_trans
              (laterAll_callStart { s with pending := rest } tid hph)
              (ih _ hgood)
          · rw [if_neg hcond]
            exact laterAll_refl s

theorem laterAll_processPending (s : SchedState) (hs : GoodState s) :
    LaterAll s (processPending s) :=
  laterAll_processPendingAux _ s hs

theorem laterAll_processQueue (s : SchedState) (now : Int) (hs : GoodState s) :
    LaterAll s (processQueue s now) := by
  cases hq : s.retrying with
  | nil => rw [processQueue_nil hq]; exact laterAll_refl s
  | cons tid rest =>
      have hmem : tid ∈ s.retrying := by rw [hq]; exact List.mem_cons_self _ _
      have hph : (taskAt s tid).phase = Phase.retryWait := (hs.2.2.1 tid hmem).2
      have hnsu : (taskAt s tid).phase ≠ Phase.settledUncounted := by
        rw [hph]; intro h; cases h
      by_cases hb : isTimeToBail now (taskAt s tid) s.timeout = true
      · rw [processQueue_bail hq hb]
        exact laterAll_updTask_tasks s tid
          (finishUpd (SettleResult.rejected (taskAt s tid).error)) _ rfl
          (later_finishUpd _ _ hnsu)
      · rw [Bool.not_eq_true] at hb
        by_cases hr : isTimeToRetry now (taskAt s tid) s.maxDelay = true
        · rw [processQueue_retryStart hq hb hr]
          exact laterAll_updTask_tasks s tid (retryStartUpd now) _ rfl
            (later_retryStartUpd _ now hnsu)
        · rw [Bool.not_eq_true] at hr
          rw [processQueue_notReady hq hb hr]
          exact laterAll_refl s

theorem laterAll_settleFirst (check : ErrVal → Bool) (now : Int) (s : SchedState)
    (tid : Nat) (hs : GoodState s) (hph : (taskAt s tid).phase = Phase.running) :
    LaterAll s (settleFirst check now s tid) := by
  have hlen : tid < s.tasks.length :=
    lt_length_of_phase_ne s tid (by rw [hph]; intro h; cases h)
  have hcnt : (taskAt s tid).counted = true :=
    (hs.2.2.2.2.2 tid hlen).2.2.2.2.2.2 (Or.inl hph)
  have hdec : (taskAt s tid).decrements = 0 :=
    decrements_eq_zero _ (hs.2.2.2.2.2 tid hlen) hcnt (by rw [hph]; intro h; cases h)
  have hlive : live (taskAt s tid) = true := live_of_counted _ hcnt hdec
  have hpend : tid ∉ s.pending :=
    not_mem_pending_of_phase s tid hs (by rw [hph]; intro h; cases h)
  have hretr : tid ∉ s.retrying :=
    not_mem_retrying_of_phase s tid hs (by rw [hph]; intro h; cases h)
  have hnsu : (taskAt s tid).phase ≠ Phase.settledUncounted := by
    rw [hph]; intro h; cases h
  cases hfn : (taskAt s tid).fn ((taskAt s tid).invocations - 1) with
  | throws e => rw [settleFirst_throws hfn]; exact laterAll_refl s
  | nonThenable => rw [settleFirst_nonThenable hfn]; exact laterAll_refl s
  | resolves v =>
      rw [settleFirst_resolves hfn]
      exact laterAll_trans
        (laterAll_updTask_tasks s tid (finishUpd (SettleResult.fulfilled v)) _ rfl
          (later_finishUpd _ _ hnsu))
        (laterAll_processPending _ (good_finishTask s tid _ hs hlen hlive hpend hretr))
  | rejects e =>
      rw [settleFirst_rejects hfn]
      unfold firstCatch
      by_cases hc : check e = false
      · rw [if_pos hc]
        exact laterAll_updTask_tasks s tid (finishUpd (SettleResult.rejected e)) _ rfl
          (later_finishUpd _ _ hnsu)
      · rw [if_neg hc]
        exact laterAll_trans
          (laterAll_updTask_tasks s tid (createTaskUpd e now) _ rfl
            (later_createTaskUpd _ e now hph))
          (laterAll_processQueue _ now
            (good_enqueueRetryTask s tid (createTaskUpd e now) hs hlen hlive hpend hretr
              (by simp [createTaskUpd]) (by simp [createTaskUpd, hcnt])
              (by simp [createTaskUpd, hdec])))

theorem laterAll_settleRetry (check : ErrVal → Bool) (now : Int) (s : SchedState)
    (tid : Nat) (hs : GoodState s) (hph : (taskAt s tid).phase = Phase.retryRunning) :
    LaterAll s (settleRetry check now s tid) := by
  have hlen : tid < s.tasks.length :=
    lt_length_of_phase_ne s tid (by rw [hph]; intro h; cases h)
  have hcnt : (taskAt s tid).counted = true :=
    (hs.2.2.2.2.2 tid hlen).2.2.2.2.2.2 (Or.inr (Or.inr hph))
  have hdec : (taskAt s tid).decrements = 0 :=
    decrements_eq_zero _ (hs.2.2.2.2.2 tid hlen) hcnt (by rw [hph]; intro h; cases h)
  have hlive : live (taskAt s tid) = true := live_of_counted _ hcnt hdec
  have hpend : tid ∉ s.pending :=
    not_mem_pending_of_phase s tid hs (by rw [hph]; intro h; cases h)
  have hretr : tid ∉ s.retrying :=
    not_mem_retrying_of_phase s tid hs (by rw [hph]; intro h; cases h)
  have hnsu : (taskAt s tid).phase ≠ Phase.settledUncounted := by
    rw [hph]; intro h; cases h
  cases hfn : (taskAt s tid).fn ((taskAt s tid).invocations - 1) with
  | throws e => rw [settleRetry_throws hfn]; exact laterAll_refl s
  | nonThenable => rw [settleRetry_nonThenable hfn]; exact laterAll_refl s
  | resolves v =>
      rw [settleRetry_resolves hfn]
      have hg1 := good_finishTask s tid (SettleResult.fulfilled v) hs hlen hlive hpend hretr
      exact laterAll_trans
        (laterAll_updTask_tasks s tid (finishUpd (SettleResult.fulfilled v)) _ rfl
          (later_finishUpd _ _ hnsu))
        (laterAll_trans (laterAll_processPending _ hg1)
          (laterAll_processQueue _ now (good_processPending _ hg1)))
  | rejects e =>
      rw [settleRetry_rejects hfn]
      unfold retryCatch
      by_cases hc : check e = false
      · rw [if_pos hc]
        have hg1 := good_finishTask s tid (SettleResult.rejected e) hs hlen hlive hpend hretr
        exact laterAll_trans
          (laterAll_updTask_tasks s tid (finishUpd (SettleResult.rejected e)) _ rfl
            (later_finishUpd _ _ hnsu))
          (laterAll_trans (laterAll_processPending _ hg1)
            (laterAll_processQueue _ now (good_processPending _ hg1)))
      · rw [if_neg hc]
        have hg1 := good_enqueueRetryTask s tid (requeueUpd now) hs hlen hlive hpend hretr
          (by simp [requeueUpd]) (by simp [requeueUpd, hcnt]) (by simp [requeueUpd, hdec])
        exact laterAll_trans
          (laterAll_updTask_tasks s tid (requeueUpd now) _ rfl
            (later_requeueUpd _ now hnsu))
          (laterAll_trans (laterAll_processPending _ hg1)
            (laterAll_processQueue _ now (good_processPending _ hg1)))

theorem laterAll_submitState (s : SchedState) (fn : Nat → Attempt) (sig : SignalSpec) :
    LaterAll s (submitState s fn sig) := by
  intro j
  have hj : taskAt (submitState s fn sig) j
      = (s.tasks ++ [mkSubmitTask fn sig]).getD j defaultTask := rfl
  rcases Nat.lt_or_ge j s.tasks.length with hlt | hge
  · rw [hj, getD_append_lt s.tasks _ j defaultTask hlt]
    exact later_refl _
  · have hdef : taskAt s j = defaultTask := getD_ge _ _ _ hge
    rw [hdef]
    constructor
    · intro hsu
      cases hsu
    · intro hpc
      simp [defaultTask, postCreate] at hpc

theorem laterAll_fireAbortListener (s : SchedState) (tid : Nat)
    (hs : GoodState s) (hlen : tid < s.tasks.length)
    (hl : (taskAt s tid).listenerOn = true) :
    LaterAll s (fireAbortListener s tid) := by
  have hnsu : (taskAt s tid).phase ≠ Phase.settledUncounted := by
    intro hx
    have := ((hs.2.2.2.2.2 tid hlen).2.2.2.2.1 hx).2.2.1
    rw [hl] at this
    cases this
  unfold fireAbortListener
  refine laterAll_updTask_tasks s tid
    (fun u => { u with cell := settleCell u.cell (SettleResult.rejected u.abortReason),
                       settleCalls := u.settleCalls + 1 }) _ rfl ?_
  constructor
  · intro hsu
    exact absurd hsu hnsu
  · intro hpc
    exact ⟨by simpa using hpc, rfl⟩

/-- Every transition respects per-task evolution: settled-synchronously
tasks are frozen, and created task records keep their phases and their
creation timestamp. -/
theorem laterAll_step {check : ErrVal → Bool} {s s' : SchedState}
    (hst : Step check s s') (hs : GoodState s) : LaterAll s s' := by
  cases hst with
  | submit fn sig h =>
      rw [(retry_ok h).1]
      exact laterAll_trans (laterAll_submitState s fn sig)
        (laterAll_processPending _ (good_submitState s fn sig hs))
  | firstSettle tid now h => exact laterAll_settleFirst check now s tid hs h
  | retrySettle tid now h => exact laterAll_settleRetry check now s tid hs h
  | tick now =>
      exact laterAll_trans (laterAll_processPending s hs)
        (laterAll_processQueue _ now (good_processPending s hs))
  | abortSet tid h =>
      refine laterAll_updTask_tasks s tid
        (fun u => { u with signalAborted := true }) _ rfl ?_
      constructor
      · intro hsu
        exact ⟨by simpa using hsu, rfl, rfl⟩
      · intro hpc
        exact ⟨by simpa using hpc, rfl⟩
  | abortFire tid h hl ha => exact laterAll_fireAbortListener s tid hs h hl

theorem laterAll_reachFrom {check : ErrVal → Bool} {s s' : SchedState}
    (h : ReachFrom check s s') (hs : GoodState s) : LaterAll s s' := by
  induction h with
  | refl => exact laterAll_refl s
  | tail hr hst ih =>
      exact laterAll_trans ih (laterAll_step hst (good_reachFrom hr hs))

/-! ## The concurrency-admission scenario -/

theorem getD_eq_get {α : Type} (l : List α) (i : Nat) (d : α) (h : i < l.length) :
    l.getD i d = l.get ⟨i, h⟩ := by
  simp [List.getD_eq_getElem?_getD, List.getElem?_eq_getElem h]

/-- In a state where every submitted task has reached a terminal phase,
the in-flight counter is 0 and the pending queue is empty. -/
theorem terminal_counts (s : SchedState) (hs : GoodState s)
    (hterm : ∀ i, i < s.tasks.length →
      (taskAt s i).phase = Phase.finished ∨
      (taskAt s i).phase = Phase.settledUncounted) :
    s.working = 0 ∧ s.pending = [] := by
  constructor
  · rw [hs.1]
    have hzero : s.tasks.countP live = 0 := by
      rw [List.countP_eq_zero]
      intro a ha
      obtain ⟨⟨i, hi⟩, rfl⟩ := List.mem_iff_get.mp ha
      have hta : taskAt s i = s.tasks.get ⟨i, hi⟩ := getD_eq_get _ _ _ hi
      have hg := hs.2.2.2.2.2 i hi
      rcases hterm i hi with hph | hph
      · have hcnt : (taskAt s i).counted = true := (hg.2.2.2.1 hph).2
        have hdec : (taskAt s i).decrements = 1 := (hg.2.2.1 hcnt).mpr hph
        rw [← hta]
        simp [live, hdec]
      · have hcnt : (taskAt s i).counted = false := (hg.2.2.2.2.1 hph).2.1
        rw [← hta]
        simp [live, hcnt]
    simp [hzero]
  · cases hp : s.pending with
    | nil => rfl
    | cons a l =>
        exfalso
        have hmem : a ∈ s.pending := by rw [hp]; exact List.mem_cons_self _ _
        have h1 := hs.2.1 a hmem
        rcases hterm a h1.1 with hph | hph <;> rw [h1.2] at hph <;> cases hph

/-- An operation that always immediately succeeds (with value 0). -/
def alwaysOk : Nat → Attempt := fun _ => Attempt.resolves 0

/-- Submit one always-succeeding operation without a cancel signal. -/
def submitOne (s : SchedState) : SchedState :=
  match retry s alwaysOk noSignal with
  | Except.ok (s', _) => s'
  | Except.error _ => s

/-- Submit `n` always-succeeding operations in order. -/
def submitMany (s : SchedState) : Nat → SchedState
  | 0 => s
  | n + 1 => submitOne (submitMany s n)

def freshOkTask : TaskState := mkSubmitTask alwaysOk noSignal

def startedOkTask : TaskState :=
  { fn := alwaysOk, invocations := 1, phase := Phase.running, counted := true }

theorem retry_alwaysOk (s : SchedState) :
    retry s alwaysOk noSignal
      = Except.ok (processPending (submitState s alwaysOk noSignal), s.tasks.length) :=
  rfl

theorem submitOne_eq (s : SchedState) :
    submitOne s = processPending (submitState s alwaysOk noSignal) := rfl

/-- Shape of the state after `n` always-succeeding submissions into a
fresh scheduler with concurrency ceiling `C`: the first `min C n`
submissions are running, the rest wait in the pending queue in
submission order. -/
def SubInv (C n : Nat) (s : SchedState) : Prop :=
  s.tasks.length = n ∧
  (∀ i, i < n →
    taskAt s i = (if i < min C n then startedOkTask else freshOkTask)) ∧
  s.pending = List.range' (min C n) (n - min C n) ∧
  s.retrying = [] ∧
  s.working = ((min C n : Nat) : Int) ∧
  s.concurrency = C

theorem ppAux_noCapacity {s : SchedState}
    (h : ¬ s.working < (s.concurrency : Int)) :
    ∀ fuel, processPendingAux fuel s = s := by
  intro fuel
  cases fuel with
  | zero => rfl
  | succ n =>
      unfold processPendingAux
      cases hp : s.pending with
      | nil => rfl
      | cons tid rest =>
          show (if s.working < (s.concurrency : Int) then
            processPendingAux n (callStart { s with pending := rest } tid) else s) = s
          rw [if_neg h]

theorem subInv_step {C n : Nat} {s : SchedState} (hs : SubInv C n s) :
    SubInv C (n + 1) (submitOne s) := by
  obtain ⟨hlen, htasks, hpend, hretr, hwork, hconc⟩ := hs
  rw [submitOne_eq]
  set s1 := submitState s alwaysOk noSignal with hs1
  have hs1tasks : s1.tasks = s.tasks ++ [freshOkTask] := rfl
  have hs1len : s1.tasks.length = n + 1 := by
    rw [hs1tasks]
    simp [hlen]
  have hs1pend : s1.pending = List.range' (min C n) (n - min C n) ++ [n] := by
    show s.pending ++ [s.tasks.length] = _
    rw [hpend, hlen]
  have hs1at : ∀ i, i < n → taskAt s1 i = taskAt s i := by
    intro i hi
    show (s.tasks ++ [freshOkTask]).getD i defaultTask = _
    rw [getD_append_lt s.tasks _ i defaultTask (by rw [hlen]; exact hi)]
    rfl
  have hs1atn : taskAt s1 n = freshOkTask := by
    show (s.tasks ++ [freshOkTask]).getD n defaultTask = freshOkTask
    rw [show n = s.tasks.length from hlen.symm, getD_append_len]
  rcases Nat.lt_or_ge n C with hnC | hnC
  · -- below the ceiling: the new task starts immediately
    have hmin : min C n = n := by omega
    have hmin' : min C (n + 1) = n + 1 := by omega
    have hpend1 : s1.pending = [n] := by
      rw [hs1pend, hmin]
      simp
    have hcond : s1.working < (s1.concurrency : Int) := by
      show s.working < (s.concurrency : Int)
      rw [hwork, hconc, hmin]
      exact_mod_cast hnC
    have hfuel : s1.pending.length = 1 := by rw [hpend1]; rfl
    unfold processPending
    rw [hfuel]
    unfold processPendingAux
    rw [hpend1]
    show SubInv C (n + 1) (if s1.working < (s1.concurrency : Int) then
      processPendingAux 0 (callStart { s1 with pending := [] } n) else s1)
    rw [if_pos hcond]
    show SubInv C (n + 1) (callStart { s1 with pending := [] } n)
    have hat : taskAt { s1 with pending := ([] : List Nat) } n = freshOkTask := hs1atn
    have hfn : (taskAt { s1 with pending := ([] : List Nat) } n).fn
        (taskAt { s1 with pending := ([] : List Nat) } n).invocations
        = Attempt.resolves 0 := by
      rw [hat]
      rfl
    rw [callStart_resolves hfn]
    refine ⟨?_, ?_, ?_, ?_, ?_, ?_⟩
    · simp [hs1len]
    · intro i hi
      rw [hmin']
      have h1 : taskAt { updTask { s1 with pending := ([] : List Nat) } n startRunUpd
          with working := s1.working + 1 } i
          = taskAt (updTask { s1 with pending := ([] : List Nat) } n startRunUpd) i := rfl
      rcases Nat.lt_or_ge i n with hin | hin
      · have hne : i ≠ n := by omega
        rw [h1, taskAt_updTask_ne _ _ _ _ hne]
        have h2 : taskAt { s1 with pending := ([] : List Nat) } i = taskAt s1 i := rfl
        rw [h2, hs1at i hin, htasks i hin]
        rw [hmin]
        simp [hin, hi]
      · have hieq : i = n := by omega
        subst hieq
        have hlt : i < ({ s1 with pending := ([] : List Nat) } : SchedState).tasks.length := by
          show i < s1.tasks.length
          omega
        rw [h1, taskAt_updTask_self _ _ _ hlt, hat, if_pos (Nat.lt_succ_self i)]
        rfl
    · show ([] : List Nat) = _
      rw [hmin']
      simp
    · show s1.retrying = []
      exact hretr
    · show s1.working + 1 = _
      rw [show s1.working = s.working from rfl, hwork, hmin, hmin']
      push_cast
      ring
    · show s1.concurrency = C
      exact hconc
  · -- at the ceiling: nothing starts, the entry stays pending
    have hmin : min C n = C := by omega
    have hmin' : min C (n + 1) = C := by omega
    have hcond : ¬ s1.working < (s1.concurrency : Int) := by
      show ¬ s.working < (s.concurrency : Int)
      rw [hwork, hconc, hmin]
      simp
    rw [show processPending s1 = s1 from ppAux_noCapacity hcond _]
    refine ⟨hs1len, ?_, ?_, hretr, ?_, hconc⟩
    · intro i hi
      rw [hmin']
      rcases Nat.lt_or_ge i n with hin | hin
      · rw [hs1at i hin, htasks i hin, hmin]
      · have hieq : i = n := by omega
        subst hieq
        rw [hs1atn]
        have : ¬ i < C := by omega
        simp [this]
    · rw [hs1pend, hmin, hmin']
      have : n - C + 1 = n + 1 - C := by omega
      rw [← this]
      have hrc := @List.range'_concat 1 C (n - C)
      simp only [Nat.one_mul] at hrc
      rw [hrc]
      have hen : C + (n - C) = n := by omega
      rw [hen]
    · show s1.working = _
      rw [show s1.working = s.working from rfl, hwork, hmin, hmin']

theorem subInv_submitMany (C : Nat) (T : Int) (D : Int) :
    ∀ n, SubInv C n (submitMany (initState C T D) n) := by
  intro n
  induction n with
  | zero =>
      refine ⟨rfl, ?_, ?_, rfl, ?_, rfl⟩
      · intro i hi
        exact absurd hi (Nat.not_lt_zero i)
      · show ([] : List Nat) = List.range' (min C 0) (0 - min C 0)
        simp
      · show (0 : Int) = ((min C 0 : Nat) : Int)
        simp
  | succ m ih => exact subInv_step ih

theorem reachable_submitMany (check : ErrVal → Bool) (C : Nat) (T : Int) (D : Int) :
    ∀ n, Reachable check C T D (submitMany (initState C T D) n) := by
  intro n
  induction n with
  | zero => exact Reachable.init
  | succ m ih =>
      exact Reachable.step ih
        (Step.submit alwaysOk noSignal (retry_alwaysOk (submitMany (initState C T D) m)))

/-! ## Definitions taken from the specification's words (for refinement
claims; everything above is translated from `retrier.js`) -/

/-- Modelled from the spec (glossary): "In-flight: a task whose
operation has been invoked and whose awaitable has not yet settled."
Counts tasks with an outstanding attempt awaitable. -/
def specInFlightCount (s : SchedState) : Nat :=
  s.tasks.countP (fun t =>
    t.phase == Phase.running || t.phase == Phase.retryRunning)

/-- Modelled from the spec (§4.2): `desiredDelay =
min(timeSinceTaskStart * 1.2, maxDelay)` with `timeSinceTaskStart =
max(lastAttemptAt - createdAt, 1)`. -/
def specDesiredDelay (t : TaskState) (maxDelay : Int) : ℚ :=
  min (max ((t.lastAttempt : ℚ) - (t.timestamp : ℚ)) 1 * (6 / 5)) maxDelay

/-! ## Concrete runs used as witnesses and counterexamples -/

/-- A predicate classifying every failure as retryable. -/
def alwaysTrue : ErrVal → Bool := fun _ => true

/-- Rejects with `val 1` on its first invocation, `val 2` on its
second, then succeeds. -/
def twoFailFn : Nat → Attempt := fun n =>
  match n with
  | 0 => Attempt.rejects (ErrVal.val 1)
  | 1 => Attempt.rejects (ErrVal.val 2)
  | _ => Attempt.resolves 0

/-- Always throws synchronously. -/
def throwFn : Nat → Attempt := fun _ => Attempt.throws (ErrVal.val 7)

/-- Submit `twoFailFn` into a retrier with concurrency 10, timeout 100,
maxDelay 5: its first attempt starts immediately. -/
def c3sA : SchedState :=
  match retry (initState 10 100 5) twoFailFn noSignal with
  | Except.ok (s, _) => s
  | Except.error _ => initState 10 100 5

/-- First attempt rejects retryably with `val 1` at time 0: the
`RetryTask` is created and parked (backoff of 6/5 not yet elapsed). -/
def c3sB : SchedState := settleFirst alwaysTrue 0 c3sA 0

/-- A `processAgain` tick at time 10 starts the retry attempt. -/
def c3sC : SchedState := processQueue (processPending c3sB) 10

/-- The retry attempt rejects retryably with `val 2` at time 10: the
task is requeued, `error` still `val 1`. -/
def c3sD : SchedState := settleRetry alwaysTrue 10 c3sC 0

/-- A tick at time 200 finds the task older than the timeout 100 and
abandons it. -/
def c3sE : SchedState := processQueue (processPending c3sD) 200

/-- Submit the synchronously-throwing `throwFn`: it is rejected during
`retry` itself, before `#working` is ever touched. -/
def c1sA : SchedState :=
  match retry (initState 8 1000 5) throwFn noSignal with
  | Except.ok (s, _) => s
  | Except.error _ => initState 8 1000 5

instance goodStateBallDec (s : SchedState) :
    Decidable (∀ tid, tid < s.tasks.length → GoodTask (taskAt s tid)) :=
  @Nat.decidableBallLT s.tasks.length (fun i _ => GoodTask (taskAt s i))
    (fun i h => inferInstance)

/-! ## The claims -/

/-- C1: for every call to `retry(fn, options)`, the promise returned to
the caller settles exactly once: (a) no transition — including an abort
listener firing after the task already settled, or a retry-loop pass
visiting an already-settled task — ever changes an existing settlement
(every redundant settle attempt is a no-op on the one-shot promise
cell); (b) in every reachable state, a task that has reached a terminal
phase carries a settlement. -/
theorem c1_settles_exactly_once (check : ErrVal → Bool) (c : Nat) (timeout : Int)
    (maxDelay : Int) :
    (∀ s s' : SchedState, Step check s s' → ∀ tid r,
        (taskAt s tid).cell = some r → (taskAt s' tid).cell = some r) ∧
    (∀ s : SchedState, Reachable check c timeout maxDelay s → ∀ tid,
        tid < s.tasks.length →
        ((taskAt s tid).phase = Phase.finished ∨
         (taskAt s tid).phase = Phase.settledUncounted) →
        (taskAt s tid).cell.isSome = true) := by
  constructor
  · intro s s' hst tid r h
    exact cellMono_step hst tid r h
  · intro s hreach tid hlen hph
    have hg := (good_reachable hreach).2.2.2.2.2 tid hlen
    rcases hph with hph | hph
    · exact (hg.2.2.2.1 hph).1
    · exact (hg.2.2.2.2.1 hph).1

/-- Witness for C1 at a concrete run: the task rejected synchronously
by `retry` keeps its settlement across a later abort-flag transition,
and its terminal phase carries a settlement. -/
theorem c1_witness :
    (taskAt (updTask c1sA 0 (fun u => { u with signalAborted := true })) 0).cell
      = some (SettleResult.rejected (ErrVal.syncError (ErrVal.val 7))) ∧
    (taskAt c1sA 0).cell.isSome = true := by
  constructor
  · exact (c1_settles_exactly_once alwaysTrue 8 1000 5).1 c1sA _
      (Step.abortSet 0 (by decide)) 0 _ (by decide)
  · exact (c1_settles_exactly_once alwaysTrue 8 1000 5).2 c1sA
      (Reachable.step Reachable.init
        (Step.submit throwFn noSignal
          (rfl : retry (initState 8 1000 5) throwFn noSignal = Except.ok (c1sA, 0))))
      0 (by decide) (Or.inr (by decide))

/-- C2: the in-flight counter `#working` is decremented exactly once
per task that was ever counted as started, and never for tasks that
were not counted: in every reachable state, `#working` equals the
number of counted-but-not-yet-decremented tasks, each task's decrement
count is at most 1, uncounted tasks have no decrement, a counted task
has its single decrement exactly when it reached the terminal
`finished` phase (one of: first-attempt fulfillment, first-attempt
non-retryable failure, retry fulfillment, retry non-retryable failure,
timeout abandonment), and synchronously-rejected tasks were never
counted. -/
theorem c2_working_decrement_once (check : ErrVal → Bool) (c : Nat) (timeout : Int)
    (maxDelay : Int) (s : SchedState)
    (h : Reachable check c timeout maxDelay s) :
    s.working = ((s.tasks.countP live : Nat) : Int) ∧
    ∀ tid, tid < s.tasks.length →
      (taskAt s tid).decrements ≤ 1 ∧
      ((taskAt s tid).counted = false → (taskAt s tid).decrements = 0) ∧
      ((taskAt s tid).counted = true →
        ((taskAt s tid).decrements = 1 ↔ (taskAt s tid).phase = Phase.finished)) ∧
      ((taskAt s tid).phase = Phase.settledUncounted →
        (taskAt s tid).counted = false ∧ (taskAt s tid).decrements = 0) := by
  have hg := good_reachable h
  refine ⟨hg.1, ?_⟩
  intro tid hlen
  obtain ⟨g1, g2, g3, _, g5, _, _⟩ := hg.2.2.2.2.2 tid hlen
  exact ⟨g1, g2, g3, fun hph => ⟨(g5 hph).2.1, g2 (g5 hph).2.1⟩⟩

/-- Witness for C2 at the reachable state with one started task. -/
theorem c2_witness :
    c3sA.working = ((c3sA.tasks.countP live : Nat) : Int) ∧
    ∀ tid, tid < c3sA.tasks.length →
      (taskAt c3sA tid).decrements ≤ 1 ∧
      ((taskAt c3sA tid).counted = false → (taskAt c3sA tid).decrements = 0) ∧
      ((taskAt c3sA tid).counted = true →
        ((taskAt c3sA tid).decrements = 1 ↔ (taskAt c3sA tid).phase = Phase.finished)) ∧
      ((taskAt c3sA tid).phase = Phase.settledUncounted →
        (taskAt c3sA tid).counted = false ∧ (taskAt c3sA tid).decrements = 0) :=
  c2_working_decrement_once alwaysTrue 10 100 5 c3sA
    (Reachable.step Reachable.init
      (Step.submit twoFailFn noSignal
        (rfl : retry (initState 10 100 5) twoFailFn noSignal = Except.ok (c3sA, 0))))

/-- C3 counterexample: a task fails retryably with `val 1`, then again
with `val 2` on its retry, then is abandoned at timeout — and the
promise is rejected with the FIRST failure `val 1`, not the most recent
stored retryable failure `val 2`: `#processQueue` never overwrites
`task.error` on a retryable retry failure (`retrier.js:445-448`). -/
theorem c3_counterexample :
    twoFailFn 0 = Attempt.rejects (ErrVal.val 1) ∧
    twoFailFn 1 = Attempt.rejects (ErrVal.val 2) ∧
    (taskAt c3sE 0).invocations = 2 ∧
    (taskAt c3sE 0).phase = Phase.finished ∧
    (taskAt c3sE 0).cell = some (SettleResult.rejected (ErrVal.val 1)) ∧
    (taskAt c3sE 0).cell ≠ some (SettleResult.rejected (ErrVal.val 2)) := by
  refine ⟨rfl, rfl, ?_, ?_, ?_, ?_⟩ <;> decide

/-- C3 amended: on a retry attempt that fails with a retryable failure,
only `lastAttemptAt` is updated — the stored `lastError` keeps the
failure captured when the task record was created — and timeout
abandonment rejects the promise with that stored (first) retryable
failure, still not with a synthetic timeout error. -/
theorem c3_amended_error_kept (check : ErrVal → Bool) (now : Int) (s : SchedState)
    (tid : Nat) (e : ErrVal) (hlen : tid < s.tasks.length) (hc : check e = true) :
    (taskAt (retryCatch check now s tid e) tid).error = (taskAt s tid).error ∧
    (taskAt (retryCatch check now s tid e) tid).lastAttempt = now ∧
    (taskAt (retryCatch check now s tid e) tid).phase = Phase.retryWait ∧
    (retryCatch check now s tid e).retrying = s.retrying ++ [tid] ∧
    (∀ (s2 : SchedState) (now2 : Int) (rest : List Nat),
      s2.retrying = tid :: rest → tid < s2.tasks.length →
      isTimeToBail now2 (taskAt s2 tid) s2.timeout = true →
      (taskAt (processQueue s2 now2) tid).cell
        = settleCell (taskAt s2 tid).cell
            (SettleResult.rejected (taskAt s2 tid).error)) := by
  have hbranch : retryCatch check now s tid e
      = { updTask s tid (requeueUpd now) with retrying := s.retrying ++ [tid] } := by
    unfold retryCatch
    rw [if_neg (by simp [hc])]
  have hat : taskAt (retryCatch check now s tid e) tid
      = requeueUpd now (taskAt s tid) := by
    rw [hbranch]
    show taskAt (updTask s tid (requeueUpd now)) tid = _
    exact taskAt_updTask_self s tid _ hlen
  refine ⟨?_, ?_, ?_, ?_, ?_⟩
  · rw [hat]; rfl
  · rw [hat]; rfl
  · rw [hat]; rfl
  · rw [hbranch]
  · intro s2 now2 rest hq hlen2 hb
    rw [processQueue_bail hq hb]
    have h2 : taskAt { updTask { s2 with retrying := rest } tid
        (finishUpd (SettleResult.rejected (taskAt s2 tid).error))
        with working := s2.working - 1 } tid
        = finishUpd (SettleResult.rejected (taskAt s2 tid).error) (taskAt s2 tid) := by
      show taskAt (updTask { s2 with retrying := rest } tid
        (finishUpd (SettleResult.rejected (taskAt s2 tid).error))) tid = _
      exact taskAt_updTask_self { s2 with retrying := rest } tid _ hlen2
    rw [h2]
    rfl

/-- Witness for the amended C3 on the concrete run: the retry failure
`val 2` at time 10 leaves the stored error `val 1` in place. -/
theorem c3_amended_witness :
    (taskAt (retryCatch alwaysTrue 10 c3sC 0 (ErrVal.val 2)) 0).error
      = (taskAt c3sC 0).error ∧
    (taskAt (retryCatch alwaysTrue 10 c3sC 0 (ErrVal.val 2)) 0).lastAttempt = 10 ∧
    (taskAt (retryCatch alwaysTrue 10 c3sC 0 (ErrVal.val 2)) 0).phase
      = Phase.retryWait ∧
    (retryCatch alwaysTrue 10 c3sC 0 (ErrVal.val 2)).retrying
      = c3sC.retrying ++ [0] ∧
    (∀ (s2 : SchedState) (now2 : Int) (rest : List Nat),
      s2.retrying = 0 :: rest → 0 < s2.tasks.length →
      isTimeToBail now2 (taskAt s2 0) s2.timeout = true →
      (taskAt (processQueue s2 now2) 0).cell
        = settleCell (taskAt s2 0).cell
            (SettleResult.rejected (taskAt s2 0).error)) :=
  c3_amended_error_kept alwaysTrue 10 c3sC 0 (ErrVal.val 2) (by decide) (by decide)

/-- The integer-scaled backoff test of the code equals the exact
rational comparison `timeSinceLastAttempt ≥ min(timeSinceTaskStart *
1.2, maxDelay)` of the specification. -/
theorem isTimeToRetry_iff_spec (now : Int) (t : TaskState) (maxDelay : Int) :
    isTimeToRetry now t maxDelay = true ↔
      ((now : ℚ) - (t.lastAttempt : ℚ) ≥ specDesiredDelay t maxDelay) := by
  unfold isTimeToRetry specDesiredDelay
  rw [decide_eq_true_eq, ge_iff_le, ge_iff_le]
  constructor
  · intro h
    rcases min_le_iff.mp h with h1 | h1
    · refine min_le_iff.mpr (Or.inl ?_)
      have h2 : ((6 * max (t.lastAttempt - t.timestamp) 1 : Int) : ℚ)
          ≤ ((5 * (now - t.lastAttempt) : Int) : ℚ) := by exact_mod_cast h1
      push_cast at h2
      linarith
    · refine min_le_iff.mpr (Or.inr ?_)
      have h2 : ((5 * maxDelay : Int) : ℚ)
          ≤ ((5 * (now - t.lastAttempt) : Int) : ℚ) := by exact_mod_cast h1
      push_cast at h2
      linarith
  · intro h
    rcases min_le_iff.mp h with h1 | h1
    · refine min_le_iff.mpr (Or.inl ?_)
      have h2 : ((6 * max (t.lastAttempt - t.timestamp) 1 : Int) : ℚ)
          ≤ ((5 * (now - t.lastAttempt) : Int) : ℚ) := by
        push_cast
        linarith
      exact_mod_cast h2
    · refine min_le_iff.mpr (Or.inr ?_)
      have h2 : ((5 * maxDelay : Int) : ℚ)
          ≤ ((5 * (now - t.lastAttempt) : Int) : ℚ) := by
        push_cast
        linarith
      exact_mod_cast h2

/-- C4: for a task examined by the retry loop that is not timed out,
the loop (a) starts a retry at time `now` if and only if
`now - lastAttemptAt ≥ min(max(lastAttemptAt - createdAt, 1) * 1.2,
maxDelay)` (the delay recomputed fresh from the task's own timestamps —
`isTimeToRetry` reads only `lastAttempt` and `timestamp`), in which
case `lastAttempt` is stamped and the attempt starts; (b) otherwise
pushes the task to the back of the retry-wait list (the next pass is a
later `Step.tick`); and the desired delay never exceeds `maxDelay`. -/
theorem c4_backoff_policy (s : SchedState) (now : Int) (tid : Nat) (rest : List Nat)
    (hq : s.retrying = tid :: rest)
    (hbail : isTimeToBail now (taskAt s tid) s.timeout = false) :
    (isTimeToRetry now (taskAt s tid) s.maxDelay = true ↔
      ((now : ℚ) - ((taskAt s tid).lastAttempt : ℚ)
        ≥ specDesiredDelay (taskAt s tid) s.maxDelay)) ∧
    (isTimeToRetry now (taskAt s tid) s.maxDelay = true →
      processQueue s now
        = updTask { s with retrying := rest } tid (retryStartUpd now)) ∧
    (isTimeToRetry now (taskAt s tid) s.maxDelay = false →
      processQueue s now = { s with retrying := rest ++ [tid] }) ∧
    specDesiredDelay (taskAt s tid) s.maxDelay ≤ (s.maxDelay : ℚ) := by
  refine ⟨isTimeToRetry_iff_spec now (taskAt s tid) s.maxDelay, ?_, ?_, ?_⟩
  · intro hr
    exact processQueue_retryStart hq hbail hr
  · intro hr
    exact processQueue_notReady hq hbail hr
  · exact min_le_right _ _

/-- Witness for C4 on the concrete run at time 10. -/
theorem c4_witness :
    (isTimeToRetry 10 (taskAt c3sB 0) c3sB.maxDelay = true ↔
      ((10 : ℚ) - ((taskAt c3sB 0).lastAttempt : ℚ)
        ≥ specDesiredDelay (taskAt c3sB 0) c3sB.maxDelay)) ∧
    (isTimeToRetry 10 (taskAt c3sB 0) c3sB.maxDelay = true →
      processQueue c3sB 10
        = updTask { c3sB with retrying := [] } 0 (retryStartUpd 10)) ∧
    (isTimeToRetry 10 (taskAt c3sB 0) c3sB.maxDelay = false →
      processQueue c3sB 10 = { c3sB with retrying := [] ++ [0] }) ∧
    specDesiredDelay (taskAt c3sB 0) c3sB.maxDelay ≤ (c3sB.maxDelay : ℚ) :=
  c4_backoff_policy c3sB 10 0 [] (by decide) (by decide)

/-- C5: admission is strict FIFO over never-started submissions — after
`P > C` simultaneous submissions of always-succeeding operations into a
fresh scheduler with concurrency ceiling `C`, exactly the first `C`
submitted tasks (ids `0..C-1`, in submission order) are in-flight,
`working = C`, and the pending queue holds exactly the remaining ids
`C..P-1` in submission order; and in any later reachable state in which
every submitted task has settled terminally, both the in-flight count
and the pending count are 0. -/
theorem c5_fifo_admission (C P : Nat) (T mD : Int) (hCP : C < P) :
    (submitMany (initState C T mD) P).working = (C : Int) ∧
    (submitMany (initState C T mD) P).pending = List.range' C (P - C) ∧
    (∀ i, i < P → (taskAt (submitMany (initState C T mD) P) i).phase
      = (if i < C then Phase.running else Phase.pendingAdm)) ∧
    (∀ (check : ErrVal → Bool) (s' : SchedState),
      ReachFrom check (submitMany (initState C T mD) P) s' →
      (∀ i, i < s'.tasks.length →
        (taskAt s' i).phase = Phase.finished ∨
        (taskAt s' i).phase = Phase.settledUncounted) →
      s'.working = 0 ∧ s'.pending = []) := by
  obtain ⟨hlen, htasks, hpend, hretr, hwork, hconc⟩ := subInv_submitMany C T mD P
  have hmin : min C P = C := by omega
  refine ⟨?_, ?_, ?_, ?_⟩
  · rw [hwork, hmin]
  · rw [hpend, hmin]
  · intro i hi
    rw [htasks i hi, hmin]
    by_cases hiC : i < C
    · rw [if_pos hiC, if_pos hiC]
      rfl
    · rw [if_neg hiC, if_neg hiC]
      rfl
  · intro check s' hrf hterm
    have hgood : GoodState (submitMany (initState C T mD) P) :=
      good_reachable (reachable_submitMany alwaysTrue C T mD P)
    exact terminal_counts s' (good_reachFrom hrf hgood) hterm

/-- Witness for C5 with ceiling 1 and 2 submissions. -/
theorem c5_witness :
    (submitMany (initState 1 1000 5) 2).working = (1 : Int) ∧
    (submitMany (initState 1 1000 5) 2).pending = List.range' 1 1 ∧
    (∀ i, i < 2 → (taskAt (submitMany (initState 1 1000 5) 2) i).phase
      = (if i < 1 then Phase.running else Phase.pendingAdm)) ∧
    (∀ (check : ErrVal → Bool) (s' : SchedState),
      ReachFrom check (submitMany (initState 1 1000 5) 2) s' →
      (∀ i, i < s'.tasks.length →
        (taskAt s' i).phase = Phase.finished ∨
        (taskAt s' i).phase = Phase.settledUncounted) →
      s'.working = 0 ∧ s'.pending = []) :=
  c5_fifo_admission 1 2 1000 5 (by decide)

theorem taskAt_updTask_tasks_or (s : SchedState) (tid : Nat)
    (f : TaskState → TaskState) (t' : SchedState)
    (ht : t'.tasks = s.tasks.set tid (f (taskAt s tid))) (j : Nat) :
    taskAt t' j = taskAt s j ∨ (j = tid ∧ taskAt t' j = f (taskAt s tid)) := by
  have hj : taskAt t' j = (s.tasks.set tid (f (taskAt s tid))).getD j defaultTask := by
    show t'.tasks.getD j defaultTask = _
    rw [ht]
  rcases Nat.lt_or_ge tid s.tasks.length with hlen | hge
  · by_cases hje : j = tid
    · subst hje
      right
      exact ⟨rfl, by rw [hj, getD_set_self _ _ _ _ hlen]⟩
    · left
      rw [hj, getD_set_ne _ _ _ _ _ hje]
      rfl
  · left
    rw [hj, set_ge _ _ _ hge]
    rfl

/-- `#processQueue` never writes any task's `timestamp`. -/
theorem timestamp_processQueue (s : SchedState) (now : Int) (j : Nat) :
    (taskAt (processQueue s now) j).timestamp = (taskAt s j).timestamp := by
  cases hq : s.retrying with
  | nil => rw [processQueue_nil hq]
  | cons tid rest =>
      by_cases hb : isTimeToBail now (taskAt s tid) s.timeout = true
      · rw [processQueue_bail hq hb]
        rcases taskAt_updTask_tasks_or s tid
            (finishUpd (SettleResult.rejected (taskAt s tid).error))
            { updTask { s with retrying := rest } tid
                (finishUpd (SettleResult.rejected (taskAt s tid).error))
              with working := s.working - 1 } rfl j with
          h | ⟨hje, h⟩
        · rw [h]
        · subst hje
          rw [h]
          rfl
      · rw [Bool.not_eq_true] at hb
        by_cases hr : isTimeToRetry now (taskAt s tid) s.maxDelay = true
        · rw [processQueue_retryStart hq hb hr]
          rcases taskAt_updTask_tasks_or s tid (retryStartUpd now)
              (updTask { s with retrying := rest } tid (retryStartUpd now)) rfl j with
            h | ⟨hje, h⟩
          · rw [h]
          · subst hje
            rw [h]
            rfl
        · rw [Bool.not_eq_true] at hr
          rw [processQueue_notReady hq hb hr]
          rfl

/-- C6: a task record's `timestamp` (`createdAt`) is stamped with the
current time exactly when the record is created — at the moment the
first attempt's retryable failure enters the retry system
(`retrier.js:156-164`, the spec's task-record creation point) — and is
never mutated afterwards (every transition from a post-creation phase
preserves it); the age used for the timeout comparison is the current
time minus that timestamp. -/
theorem c6_createdAt_immutable (check : ErrVal → Bool) :
    (∀ s s' : SchedState, GoodState s → Step check s s' → ∀ tid,
      postCreate (taskAt s tid).phase = true →
      (taskAt s' tid).timestamp = (taskAt s tid).timestamp ∧
      postCreate (taskAt s' tid).phase = true) ∧
    (∀ (now : Int) (t : TaskState) (timeout : Int),
      isTimeToBail now t timeout = decide (taskAge now t > timeout)) ∧
    (∀ (now : Int) (t : TaskState), taskAge now t = now - t.timestamp) ∧
    (∀ (now : Int) (s : SchedState) (tid : Nat) (e : ErrVal),
      tid < s.tasks.length → check e = true →
      (taskAt (firstCatch check now s tid e) tid).timestamp = now) := by
  refine ⟨?_, fun _ _ _ => rfl, fun _ _ => rfl, ?_⟩
  · intro s s' hs hst tid hpc
    have h := laterAll_step hst hs tid
    exact ⟨((h.2) hpc).2, ((h.2) hpc).1⟩
  · intro now s tid e hlen hc
    unfold firstCatch
    rw [if_neg (by simp [hc])]
    rw [timestamp_processQueue]
    have h2 : taskAt { updTask s tid (createTaskUpd e now) with
        retrying := (updTask s tid (createTaskUpd e now)).retrying ++ [tid] } tid
        = createTaskUpd e now (taskAt s tid) := by
      show taskAt (updTask s tid (createTaskUpd e now)) tid = _
      exact taskAt_updTask_self s tid _ hlen
    rw [h2]
    rfl

/-- Witness for C6: across the tick that starts the retry attempt, task
0 keeps its creation timestamp; and the creation path stamps it with
the creation time 0. -/
theorem c6_witness :
    ((taskAt (processQueue (processPending c3sB) 10) 0).timestamp
        = (taskAt c3sB 0).timestamp ∧
      postCreate (taskAt (processQueue (processPending c3sB) 10) 0).phase = true) ∧
    (taskAt (firstCatch alwaysTrue 0 c3sA 0 (ErrVal.val 1)) 0).timestamp = 0 :=
  ⟨(c6_createdAt_immutable alwaysTrue).1 c3sB _ (by decide) (Step.tick 10) 0 (by decide),
    (c6_createdAt_immutable alwaysTrue).2.2.2 0 c3sA 0 (ErrVal.val 1) (by decide)
      (by decide)⟩

/-- C7 counterexample: in the reachable state `c3sB`, the one submitted
task sits in the retry-wait list between attempts — its operation's
awaitable has settled (rejected) and no attempt is outstanding — yet
the `working` accessor still reports 1: `working` does not report the
number of in-flight tasks in the spec's sense. -/
theorem c7_counterexample :
    c3sB.working = 1 ∧
    specInFlightCount c3sB = 0 ∧
    (taskAt c3sB 0).phase = Phase.retryWait ∧
    c3sB.retrying = [0] := by
  refine ⟨?_, ?_, ?_, ?_⟩ <;> decide

/-- C7 amended: the `working` accessor reports the number of tasks that
were counted as started and have not yet reached their terminal
decrement — this count includes tasks parked in the retry-wait list
between attempts, not only tasks with an outstanding awaitable. -/
theorem c7_amended_working_counts (check : ErrVal → Bool) (c : Nat) (timeout : Int)
    (maxDelay : Int) (s : SchedState) (h : Reachable check c timeout maxDelay s) :
    s.working = ((s.tasks.countP live : Nat) : Int) :=
  (good_reachable h).1

/-- Witness for the amended C7 at the reachable state `c3sB`. -/
theorem c7_amended_witness :
    c3sB.working = ((c3sB.tasks.countP live : Nat) : Int) :=
  c7_amended_working_counts alwaysTrue 10 100 5 c3sB
    (Reachable.step
      (Reachable.step Reachable.init
        (Step.submit twoFailFn noSignal
          (rfl : retry (initState 10 100 5) twoFailFn noSignal = Except.ok (c3sA, 0))))
      (Step.firstSettle 0 0 (by decide)))

/-- A scheduler holding one not-yet-started task whose operation throws
synchronously. -/
def c8s : SchedState :=
  { tasks := [{ fn := throwFn }], pending := [], retrying := [], working := 0,
    concurrency := 8, timeout := 1000, maxDelay := 5 }

/-- C8: an operation that throws synchronously on admission is invoked
exactly once, its promise is rejected with the wrapped "Synchronous
error" carrying the thrown value as its cause, and — for every
classifier `check` and along every later run of the scheduler — the
task stays settled-uncounted with invocation count 1: no retry ever
happens, regardless of the retry predicate (which is never consulted on
this path). -/
theorem c8_sync_throw (s : SchedState) (tid : Nat) (e : ErrVal)
    (hs : GoodState s) (hlen : tid < s.tasks.length)
    (hph : (taskAt s tid).phase = Phase.pendingAdm)
    (hpend : tid ∉ s.pending)
    (hfn : (taskAt s tid).fn (taskAt s tid).invocations = Attempt.throws e) :
    (taskAt (callStart s tid) tid).cell
      = some (SettleResult.rejected (ErrVal.syncError e)) ∧
    (taskAt (callStart s tid) tid).invocations = 1 ∧
    (taskAt (callStart s tid) tid).phase = Phase.settledUncounted ∧
    (∀ (check : ErrVal → Bool) (s' : SchedState),
      ReachFrom check (callStart s tid) s' →
      (taskAt s' tid).invocations = 1 ∧
      (taskAt s' tid).phase = Phase.settledUncounted ∧
      (taskAt s' tid).cell = some (SettleResult.rejected (ErrVal.syncError e))) := by
  obtain ⟨hcnt, hinv, hcell, hlis⟩ := (hs.2.2.2.2.2 tid hlen).2.2.2.2.2.1 hph
  have hat : taskAt (callStart s tid) tid
      = rejectSyncUpd (SettleResult.rejected (ErrVal.syncError e)) (taskAt s tid) := by
    rw [callStart_throws hfn]
    exact taskAt_updTask_self s tid _ hlen
  have h1 : (taskAt (callStart s tid) tid).cell
      = some (SettleResult.rejected (ErrVal.syncError e)) := by
    rw [hat]
    simp [rejectSyncUpd, hcell]
  have h2 : (taskAt (callStart s tid) tid).invocations = 1 := by
    rw [hat]
    simp [rejectSyncUpd, hinv]
  have h3 : (taskAt (callStart s tid) tid).phase = Phase.settledUncounted := by
    rw [hat]
    rfl
  refine ⟨h1, h2, h3, ?_⟩
  intro check s' hrf
  have hgood : GoodState (callStart s tid) := good_callStart s tid hs hlen hph hpend
  have hlater := laterAll_reachFrom hrf hgood tid
  obtain ⟨hp', hi', hc'⟩ := hlater.1 h3
  exact ⟨hi'.trans h2, hp', hc'.trans h1⟩

/-- Witness for C8 on the one-task scheduler `c8s`. -/
theorem c8_witness :
    (taskAt (callStart c8s 0) 0).cell
      = some (SettleResult.rejected (ErrVal.syncError (ErrVal.val 7))) ∧
    (taskAt (callStart c8s 0) 0).invocations = 1 ∧
    (taskAt (callStart c8s 0) 0).phase = Phase.settledUncounted ∧
    (∀ (check : ErrVal → Bool) (s' : SchedState),
      ReachFrom check (callStart c8s 0) s' →
      (taskAt s' 0).invocations = 1 ∧
      (taskAt s' 0).phase = Phase.settledUncounted ∧
      (taskAt s' 0).cell
        = some (SettleResult.rejected (ErrVal.syncError (ErrVal.val 7)))) :=
  c8_sync_throw c8s 0 (ErrVal.val 7) (by decide) (by decide) (by decide)
    (by decide) (by decide)

/-- C9: submitting with an already-triggered cancel signal fails
immediately with the signal's abort reason (`signal?.throwIfAborted()`
throws out of `retry` before the pending entry or promise is created),
and no scheduler state is ever produced, so the operation is never
invoked. -/
theorem c9_already_aborted (s : SchedState) (fn : Nat → Attempt) (sig : SignalSpec)
    (hp : sig.present = true) (ha : sig.aborted = true) :
    retry s fn sig = Except.error sig.reason ∧
    ∀ (s' : SchedState) (tid : Nat), retry s fn sig ≠ Except.ok (s', tid) := by
  have hb : (sig.present && sig.aborted) = true := by rw [hp, ha]; rfl
  have herr : retry s fn sig = Except.error sig.reason := by
    unfold retry
    rw [if_pos hb]
  refine ⟨herr, ?_⟩
  intro s' tid hok
  rw [herr] at hok
  cases hok

/-- Witness for C9. -/
theorem c9_witness :
    retry (initState 4 1000 5) alwaysOk
        { present := true, aborted := true, reason := ErrVal.val 3 }
      = Except.error (ErrVal.val 3) ∧
    ∀ (s' : SchedState) (tid : Nat),
      retry (initState 4 1000 5) alwaysOk
          { present := true, aborted := true, reason := ErrVal.val 3 }
        ≠ Except.ok (s', tid) :=
  c9_already_aborted (initState 4 1000 5) alwaysOk
    { present := true, aborted := true, reason := ErrVal.val 3 } rfl rfl

/-- C10: an operation that fails without ever being counted as started
— it throws synchronously or returns a non-thenable — rejects the
promise while leaving `#working`, the retry-wait list, the pending list
and the task's `counted` flag untouched: no concurrency slot is
consumed. -/
theorem c10_uncounted_failure_frame (s : SchedState) (tid : Nat)
    (hlen : tid < s.tasks.length)
    (hout : (∃ e, (taskAt s tid).fn (taskAt s tid).invocations = Attempt.throws e) ∨
      (taskAt s tid).fn (taskAt s tid).invocations = Attempt.nonThenable) :
    (callStart s tid).working = s.working ∧
    (callStart s tid).retrying = s.retrying ∧
    (callStart s tid).pending = s.pending ∧
    (taskAt (callStart s tid) tid).counted = (taskAt s tid).counted ∧
    (∃ r : ErrVal, (taskAt (callStart s tid) tid).cell
      = settleCell (taskAt s tid).cell (SettleResult.rejected r)) := by
  rcases hout with ⟨e, hfn⟩ | hfn
  · rw [callStart_throws hfn]
    refine ⟨rfl, rfl, rfl, ?_, ⟨ErrVal.syncError e, ?_⟩⟩
    · rw [taskAt_updTask_self s tid _ hlen]
      rfl
    · rw [taskAt_updTask_self s tid _ hlen]
      rfl
  · rw [callStart_nonThenable hfn]
    refine ⟨rfl, rfl, rfl, ?_, ⟨ErrVal.notAPromise, ?_⟩⟩
    · rw [taskAt_updTask_self s tid _ hlen]
      rfl
    · rw [taskAt_updTask_self s tid _ hlen]
      rfl

/-- Witness for C10 on the one-task scheduler `c8s`. -/
theorem c10_witness :
    (callStart c8s 0).working = c8s.working ∧
    (callStart c8s 0).retrying = c8s.retrying ∧
    (callStart c8s 0).pending = c8s.pending ∧
    (taskAt (callStart c8s 0) 0).counted = (taskAt c8s 0).counted ∧
    (∃ r : ErrVal, (taskAt (callStart c8s 0) 0).cell
      = settleCell (taskAt c8s 0).cell (SettleResult.rejected r)) :=
  c10_uncounted_failure_frame c8s 0 (by decide)
    (Or.inl ⟨ErrVal.val 7, by decide⟩)

end RetrierModel
